import Mathlib

/-!
Verification development for the iamf-tools OBU serialization engine.

The definitions below are shallow embeddings of the C++ sources:
  * `iamf/common/read_bit_buffer.cc` (the bit-level read buffer),
  * `iamf/cli/cli_util.cc` (trim validation, param-definition collection),
and, where the repository ships only the tests of a component
(`iamf/cli/obu_sequencer.cc` is not in the source tree), models written
from the specification text, marked `Modelled from the spec:`.

Machine integers are embedded as `Nat` with explicit `% 2 ^ 32` at the
points where the C++ code can overflow a `uint32_t`.
-/

namespace IamfTools

/-- Embeds `absl::Status` codes used by the sources (taxonomy of §7). -/
inductive StatusCode where
  | ok
  | invalidArgument
  | outOfRange
  | resourceExhausted
  | unknown
  deriving DecidableEq, Repr

/-! ## Read bit buffer (`iamf/common/read_bit_buffer.cc`) -/

/-- State of `ReadBitBuffer`: the source byte vector, a bit cursor into it,
the internal bit buffer (a byte vector of reserved capacity `capacity`),
a read cursor and the number of valid bits in the internal buffer. -/
structure ReadBitBuffer where
  source : List Nat
  sourceBitOffset : Nat
  bitBuffer : List Nat
  bufferBitOffset : Nat
  bufferSize : Nat
  capacity : Nat
  deriving DecidableEq, Repr

/-- `ShouldRead` from `read_bit_buffer.cc`. -/
def shouldRead (sourceOffset : Nat) (source : List Nat) (remainingBitsToRead : Nat) : Bool :=
  decide (sourceOffset / 8 < source.length) && decide (0 < remainingBitsToRead)

/-- `CanReadByteAligned` from `read_bit_buffer.cc`. -/
def canReadByteAligned (bufferBitOffset : Nat) (numBits : Nat) : Bool :=
  decide (bufferBitOffset % 8 = 0) && decide (numBits % 8 = 0)

/-- `GetUpperBit` from `read_bit_buffer.cc`: bit `offset` of the byte
vector, most significant bit first. -/
def getUpperBit (offset : Nat) (sourceData : List Nat) : Nat :=
  (sourceData.getD (offset / 8) 0 >>> (7 - offset % 8)) &&& 1

/-- `ReadUnsignedLiteralBits`: reads bit by bit while the cursor is inside
the buffer and below `bufferSize`.  Returns the final cursor, the bits
still to read, and the accumulated output. -/
def readUnsignedLiteralBits (bitBuffer : List Nat) (bufferSize : Nat) :
    Nat → Nat → Nat → Nat × Nat × Nat
  | bufferBitOffset, 0, output => (bufferBitOffset, 0, output)
  | bufferBitOffset, remaining + 1, output =>
    if bufferBitOffset / 8 < bitBuffer.length ∧ bufferBitOffset < bufferSize then
      readUnsignedLiteralBits bitBuffer bufferSize (bufferBitOffset + 1) remaining
        (output ||| (getUpperBit bufferBitOffset bitBuffer <<< remaining))
    else (bufferBitOffset, remaining + 1, output)

/-- `ReadUnsignedLiteralBytes`: reads whole bytes while the cursor is
inside the buffer.  Returns the final cursor, the bits still to read, and
the accumulated output. -/
def readUnsignedLiteralBytes (bitBuffer : List Nat) :
    Nat → Nat → Nat → Nat × Nat × Nat
  | bufferBitOffset, remaining, output =>
    if h : bufferBitOffset / 8 < bitBuffer.length ∧ 0 < remaining then
      readUnsignedLiteralBytes bitBuffer (bufferBitOffset + 8) (remaining - 8)
        ((output <<< 8) ||| bitBuffer.getD (bufferBitOffset / 8) 0)
    else (bufferBitOffset, remaining, output)
  termination_by bufferBitOffset remaining _ => remaining

/-- `DiscardAllBits` from `read_bit_buffer.cc`. -/
def discardAllBits (rb : ReadBitBuffer) : ReadBitBuffer :=
  { rb with bufferBitOffset := 0, bufferSize := 0, bitBuffer := [] }

/-- `CanWriteBits`/`WriteBit` pair from `bit_buffer_util` as used by
`LoadBits`: grow the byte vector so bit position `offset` exists, then set
that bit (the buffer is zero beyond the write cursor, so `|||` writes it). -/
def writeBit (bitBuffer : List Nat) (offset : Nat) (bit : Nat) : List Nat :=
  let buf := if offset / 8 < bitBuffer.length then bitBuffer else bitBuffer ++ [0]
  buf.set (offset / 8) (buf.getD (offset / 8) 0 ||| (bit <<< (7 - offset % 8)))

/-- The loading loop of `ReadBitBuffer::LoadBits`.  Returns the new source
offset, internal buffer, buffer size and the number of bits loaded. -/
def loadBitsLoop (source : List Nat) (capacity numBitsToLoad : Nat) :
    Nat → List Nat → Nat → Nat → Nat → Nat × List Nat × Nat × Nat
  | sourceBitOffset, bitBuffer, bufferSize, bitsLoaded, writeOffset =>
    if h : shouldRead sourceBitOffset source (numBitsToLoad - bitsLoaded) = true ∧
        bitBuffer.length ≠ capacity then
      if (numBitsToLoad - bitsLoaded) % 8 ≠ 0 ∨ sourceBitOffset % 8 ≠ 0 ∨
          writeOffset % 8 ≠ 0 then
        loadBitsLoop source capacity numBitsToLoad (sourceBitOffset + 1)
          (writeBit bitBuffer writeOffset (getUpperBit sourceBitOffset source))
          (bufferSize + 1) (bitsLoaded + 1) (writeOffset + 1)
      else
        loadBitsLoop source capacity numBitsToLoad (sourceBitOffset + 8)
          (bitBuffer ++ [source.getD (sourceBitOffset / 8) 0])
          (bufferSize + 8) (bitsLoaded + 8) writeOffset
    else (sourceBitOffset, bitBuffer, bufferSize, bitsLoaded)
  termination_by sourceBitOffset _ _ _ _ => 8 * source.length - sourceBitOffset
  decreasing_by
    all_goals
      simp only [shouldRead, Bool.and_eq_true, decide_eq_true_eq] at h
      omega

/-- `ReadBitBuffer::LoadBits`: ensures at least `requiredNumBits` are in the
internal buffer; on failure the source offset is restored and the internal
buffer is discarded. -/
def loadBits (rb : ReadBitBuffer) (requiredNumBits : Nat) (fillToCapacity : Bool) :
    StatusCode × ReadBitBuffer :=
  let rb0 := discardAllBits rb
  if fillToCapacity ∧ rb0.capacity * 8 < requiredNumBits then
    (.invalidArgument, rb0)
  else
    let numBitsToLoad := if fillToCapacity then rb0.capacity * 8 else requiredNumBits
    let r := loadBitsLoop rb0.source rb0.capacity numBitsToLoad rb0.sourceBitOffset
      rb0.bitBuffer rb0.bufferSize 0 0
    if r.2.2.2 < requiredNumBits then
      (.resourceExhausted, discardAllBits { rb0 with sourceBitOffset := rb.sourceBitOffset })
    else
      (.ok, { rb0 with sourceBitOffset := r.1, bitBuffer := r.2.1, bufferSize := r.2.2.1 })

/-- Single-variant `LoadBits` (default `fill_to_capacity = false`). -/
def loadBitsDefault (rb : ReadBitBuffer) (requiredNumBits : Nat) :
    StatusCode × ReadBitBuffer :=
  loadBits rb requiredNumBits false

/-- `ReadBitBuffer::ReadUnsignedLiteralInternal`: reads `numBits` bits
(rejecting requests above `maxNumBits`), topping the internal buffer up
from the source when it runs dry.  Returns the status, the new buffer
state, and the value read (meaningful only on `ok`; the C++ routine leaves
the caller's output variable unspecified on error paths). -/
def readUnsignedLiteralInternal (rb : ReadBitBuffer) (numBits maxNumBits : Nat) :
    StatusCode × ReadBitBuffer × Nat :=
  if maxNumBits < numBits then (.invalidArgument, rb, 0)
  else
    let r :=
      if canReadByteAligned rb.bufferBitOffset numBits then
        readUnsignedLiteralBytes rb.bitBuffer rb.bufferBitOffset numBits 0
      else
        readUnsignedLiteralBits rb.bitBuffer rb.bufferSize rb.bufferBitOffset numBits 0
    let rb1 := { rb with bufferBitOffset := r.1 }
    if r.2.1 ≠ 0 then
      match loadBits rb1 r.2.1 false with
      | (.ok, rb2) =>
        let r2 :=
          if canReadByteAligned rb2.bufferBitOffset numBits then
            readUnsignedLiteralBytes rb2.bitBuffer rb2.bufferBitOffset r.2.1 r.2.2
          else
            readUnsignedLiteralBits rb2.bitBuffer rb2.bufferSize rb2.bufferBitOffset r.2.1 r.2.2
        (.ok, { rb2 with bufferBitOffset := r2.1 }, r2.2.2)
      | (st, rb2) => (st, rb2, 0)
    else (.ok, rb1, r.2.2)

/-- `ReadUnsignedLiteral` into a `uint64_t` output. -/
def readUnsignedLiteral64 (rb : ReadBitBuffer) (numBits : Nat) :
    StatusCode × ReadBitBuffer × Nat :=
  readUnsignedLiteralInternal rb numBits 64

/-- `ReadUnsignedLiteral` into a `uint32_t` output (`static_cast` of the
64-bit value read with `max_num_bits = 32`). -/
def readUnsignedLiteral32 (rb : ReadBitBuffer) (numBits : Nat) :
    StatusCode × ReadBitBuffer × Nat :=
  let r := readUnsignedLiteralInternal rb numBits 32
  (r.1, r.2.1, r.2.2 % 2 ^ 32)

/-- `ReadUnsignedLiteral` into a `uint16_t` output. -/
def readUnsignedLiteral16 (rb : ReadBitBuffer) (numBits : Nat) :
    StatusCode × ReadBitBuffer × Nat :=
  let r := readUnsignedLiteralInternal rb numBits 16
  (r.1, r.2.1, r.2.2 % 2 ^ 16)

/-- `ReadUnsignedLiteral` into a `uint8_t` output. -/
def readUnsignedLiteral8 (rb : ReadBitBuffer) (numBits : Nat) :
    StatusCode × ReadBitBuffer × Nat :=
  let r := readUnsignedLiteralInternal rb numBits 8
  (r.1, r.2.1, r.2.2 % 2 ^ 8)

/-- A `ReadBitBuffer` freshly constructed over a source byte vector with
the given internal capacity (`ReadBitBuffer::ReadBitBuffer`). -/
def freshReader (stream : List Nat) (capacity : Nat) : ReadBitBuffer :=
  { source := stream, sourceBitOffset := 0, bitBuffer := [],
    bufferBitOffset := 0, bufferSize := 0, capacity := capacity }

theorem readUnsignedLiteralInternal_overwidth (rb : ReadBitBuffer)
    (numBits maxNumBits : Nat) (h : maxNumBits < numBits) :
    readUnsignedLiteralInternal rb numBits maxNumBits = (.invalidArgument, rb, 0) := by
  simp [readUnsignedLiteralInternal, h]

/-- C7 counterexample: requesting 9 bits into an 8-bit output fails with
`InvalidArgument`, not `OutOfRange` as the claim states. -/
theorem readUnsignedLiteral8_nine_bits_not_outOfRange :
    (readUnsignedLiteral8 (freshReader [0, 0] 1024) 9).1 = StatusCode.invalidArgument ∧
      StatusCode.invalidArgument ≠ StatusCode.outOfRange := by
  constructor
  · rfl
  · decide

/-- C7 (amended): `ReadUnsignedLiteral` into an 8-, 16-, 32-, or 64-bit
output fails with `InvalidArgument` (not `OutOfRange`) whenever `num_bits`
exceeds the width of the output type. -/
theorem readUnsignedLiteral_overwidth_invalidArgument (rb : ReadBitBuffer) (numBits : Nat) :
    (8 < numBits → readUnsignedLiteral8 rb numBits = (.invalidArgument, rb, 0)) ∧
    (16 < numBits → readUnsignedLiteral16 rb numBits = (.invalidArgument, rb, 0)) ∧
    (32 < numBits → readUnsignedLiteral32 rb numBits = (.invalidArgument, rb, 0)) ∧
    (64 < numBits → readUnsignedLiteral64 rb numBits = (.invalidArgument, rb, 0)) := by
  refine ⟨fun h => ?_, fun h => ?_, fun h => ?_, fun h => ?_⟩ <;>
    simp [readUnsignedLiteral8, readUnsignedLiteral16, readUnsignedLiteral32,
      readUnsignedLiteral64, readUnsignedLiteralInternal_overwidth rb numBits _ h]

/-- Witness for C7's amended theorem at `num_bits = 65`. -/
theorem readUnsignedLiteral_overwidth_invalidArgument_witness :
    (readUnsignedLiteral8 (freshReader [] 4) 65).1 = StatusCode.invalidArgument ∧
      (readUnsignedLiteral64 (freshReader [] 4) 65).1 = StatusCode.invalidArgument := by
  have h := readUnsignedLiteral_overwidth_invalidArgument (freshReader [] 4) 65
  exact ⟨by rw [h.1 (by decide)], by rw [h.2.2.2 (by decide)]⟩

theorem loadBitsLoop_spec (src : List Nat) (cap ntl srcOff : Nat) (buf : List Nat)
    (bsz loaded woff : Nat) :
    srcOff ≤ (loadBitsLoop src cap ntl srcOff buf bsz loaded woff).1 ∧
    (loadBitsLoop src cap ntl srcOff buf bsz loaded woff).2.2.2 + srcOff =
      loaded + (loadBitsLoop src cap ntl srcOff buf bsz loaded woff).1 ∧
    ((loadBitsLoop src cap ntl srcOff buf bsz loaded woff).1 = srcOff ∨
      (loadBitsLoop src cap ntl srcOff buf bsz loaded woff).1 ≤ 8 * src.length) := by
  induction srcOff, buf, bsz, loaded, woff using loadBitsLoop.induct src cap ntl with
  | case1 srcOff buf bsz loaded woff h hbranch ih =>
    rw [loadBitsLoop, dif_pos h, if_pos hbranch, loadBitsLoop]
    rw [loadBitsLoop] at ih
    simp only [shouldRead, Bool.and_eq_true, decide_eq_true_eq] at h
    omega
  | case2 srcOff buf bsz loaded woff h hbranch ih =>
    rw [loadBitsLoop, dif_pos h, if_neg hbranch, loadBitsLoop]
    rw [loadBitsLoop] at ih
    simp only [shouldRead, Bool.and_eq_true, decide_eq_true_eq] at h
    omega
  | case3 srcOff buf bsz loaded woff h =>
    rw [loadBitsLoop, dif_neg h]
    exact ⟨Nat.le_refl _, rfl, Or.inl rfl⟩

/-- C10 counterexample: a call that cannot obtain the required bits from
the (empty) source returns `InvalidArgument`, not `ResourceExhausted`,
when `fill_to_capacity` is set and the request exceeds the capacity. -/
theorem loadBits_fillToCapacity_not_resourceExhausted :
    8 * (freshReader [] 1).source.length - (freshReader [] 1).sourceBitOffset < 16 ∧
      (loadBits (freshReader [] 1) 16 true).1 = StatusCode.invalidArgument ∧
      StatusCode.invalidArgument ≠ StatusCode.resourceExhausted := by
  refine ⟨by decide, ?_, by decide⟩
  rfl

/-- C10 (amended): a call to `LoadBits` that cannot obtain the required
number of bits from the source fails — with `InvalidArgument` when
`fill_to_capacity` is set and the request exceeds the buffer capacity,
otherwise with `ResourceExhausted` — and in either case leaves the source
bit offset at its pre-call value with the internal bit buffer empty, so a
failed load consumes no source bits. -/
theorem loadBits_source_short (rb : ReadBitBuffer) (n : Nat) (fill : Bool)
    (h : 8 * rb.source.length - rb.sourceBitOffset < n) :
    (loadBits rb n fill).1 =
      (if fill = true ∧ rb.capacity * 8 < n then StatusCode.invalidArgument
        else StatusCode.resourceExhausted) ∧
    (loadBits rb n fill).2.sourceBitOffset = rb.sourceBitOffset ∧
    (loadBits rb n fill).2.bitBuffer = [] ∧
    (loadBits rb n fill).2.bufferSize = 0 ∧
    (loadBits rb n fill).2.bufferBitOffset = 0 := by
  unfold loadBits
  by_cases hfill : fill = true ∧ (discardAllBits rb).capacity * 8 < n
  · have hfill' : fill = true ∧ rb.capacity * 8 < n := hfill
    simp only [if_pos hfill, if_pos hfill', discardAllBits]
    simp
  · have hfill' : ¬(fill = true ∧ rb.capacity * 8 < n) := hfill
    simp only [if_neg hfill, if_neg hfill']
    have hspec := loadBitsLoop_spec (discardAllBits rb).source (discardAllBits rb).capacity
      (if fill = true then (discardAllBits rb).capacity * 8 else n)
      (discardAllBits rb).sourceBitOffset (discardAllBits rb).bitBuffer
      (discardAllBits rb).bufferSize 0 0
    have hsrc : (discardAllBits rb).source = rb.source := rfl
    have hoff : (discardAllBits rb).sourceBitOffset = rb.sourceBitOffset := rfl
    rw [hsrc, hoff] at hspec
    have hlt : (loadBitsLoop rb.source (discardAllBits rb).capacity
        (if fill = true then (discardAllBits rb).capacity * 8 else n)
        rb.sourceBitOffset (discardAllBits rb).bitBuffer
        (discardAllBits rb).bufferSize 0 0).2.2.2 < n := by omega
    simp only [discardAllBits] at hlt ⊢
    rw [if_pos hlt]
    simp

/-- Witness for C10's amended theorem: loading 8 bits from an exhausted
two-byte source fails with `ResourceExhausted` and restores the state. -/
theorem loadBits_source_short_witness :
    (loadBits { freshReader [7, 9] 64 with sourceBitOffset := 16 } 8 false).1 =
        StatusCode.resourceExhausted ∧
      (loadBits { freshReader [7, 9] 64 with sourceBitOffset := 16 } 8 false).2.sourceBitOffset =
        16 := by
  have h := loadBits_source_short { freshReader [7, 9] 64 with sourceBitOffset := 16 } 8 false
    (by decide)
  refine ⟨?_, h.2.1⟩
  rw [h.1]
  decide

/-! ## ULEB128 decoding (`ReadBitBuffer::ReadULeb128`) -/

/-- `kMaxLeb128Size` from `iamf/obu/types.h`: at most 8 encoded bytes. -/
def kMaxLeb128Size : Nat := 8

/-- The `little_endian_accumulator` of `ReadBitBuffer::ReadULeb128`. -/
def littleEndianAccumulator (byte index accumulatedValue : Nat) : Nat :=
  accumulatedValue ||| ((byte &&& 0x7f) <<< (7 * index))

/-- IAMF requires all `leb128`s to decode to a value that fits in 32 bits
(`std::numeric_limits<uint32_t>::max()`). -/
def kMaxUleb128 : Nat := 2 ^ 32 - 1

/-- The loop of `AccumulateUleb128OrIso14496_1Internal` together with the
checks of `AccumulateUleb128Byte`.  Returns status, buffer state, the
accumulated value (meaningful on `ok`) and the encoded size so far. -/
def accumulateUleb128Loop (accumulator : Nat → Nat → Nat → Nat) (maxOutput : Nat) :
    ReadBitBuffer → Nat → Nat → Nat → StatusCode × ReadBitBuffer × Nat × Nat
  | rb, i, acc, encodedSize =>
    if h : i < kMaxLeb128Size then
      let r := readUnsignedLiteral64 rb 8
      if r.1 ≠ .ok then (r.1, r.2.1, 0, encodedSize)
      else
        let acc' := accumulator r.2.2 i acc
        if i = kMaxLeb128Size - 1 ∧ r.2.2 &&& 0x80 ≠ 0 then
          (.invalidArgument, r.2.1, 0, encodedSize + 1)
        else if maxOutput < acc' then
          (.invalidArgument, r.2.1, 0, encodedSize + 1)
        else if r.2.2 &&& 0x80 = 0 then
          (.ok, r.2.1, acc', encodedSize + 1)
        else
          accumulateUleb128Loop accumulator maxOutput r.2.1 (i + 1) acc' (encodedSize + 1)
    else (.ok, rb, acc, encodedSize)
  termination_by rb i _ _ => kMaxLeb128Size - i

/-- `AccumulateUleb128OrIso14496_1Internal`: run the loop from scratch and
apply the final `static_cast<uint32_t>` to the accumulated value. -/
def accumulateUleb128OrIso14496_1Internal (accumulator : Nat → Nat → Nat → Nat)
    (maxOutput : Nat) (rb : ReadBitBuffer) : StatusCode × ReadBitBuffer × Nat × Nat :=
  let r := accumulateUleb128Loop accumulator maxOutput rb 0 0 0
  (r.1, r.2.1, r.2.2.1 % 2 ^ 32, r.2.2.2)

/-- `ReadBitBuffer::ReadULeb128`: status, buffer state, decoded value, and
the number of encoded bytes consumed. -/
def readULeb128 (rb : ReadBitBuffer) : StatusCode × ReadBitBuffer × Nat × Nat :=
  accumulateUleb128OrIso14496_1Internal littleEndianAccumulator kMaxUleb128 rb

/-- Follows the words of claim C4: accumulate 7-bit groups little-endian,
failing with `InvalidArgument` exactly when the continuation bit is still
set after 8 bytes or the accumulated value exceeds `2^32 - 1`; otherwise
return the decoded value and the number of bytes consumed; (amended) fail
with `ResourceExhausted` when the stream ends before the encoding
terminates.  Returns status, value, bytes consumed. -/
def decodeUleb128Claim (stream : List Nat) : Nat → Nat → StatusCode × Nat × Nat
  | i, acc =>
    if i < stream.length then
      let b := stream.getD i 0
      let acc' := acc + (b % 128) * 2 ^ (7 * i)
      if h8 : 8 ≤ i + 1 ∧ 128 ≤ b then (.invalidArgument, 0, i + 1)
      else if 2 ^ 32 - 1 < acc' then (.invalidArgument, 0, i + 1)
      else if hb : b < 128 then (.ok, acc', i + 1)
      else decodeUleb128Claim stream (i + 1) acc'
    else (.resourceExhausted, 0, i)
  termination_by i _ => 8 - i
  decreasing_by omega

/-- The canonical state of a fresh reader over `stream` after `k` whole
bytes have been consumed through `ReadUnsignedLiteral(8, ·)`. -/
def readerAt (stream : List Nat) (cap k : Nat) : ReadBitBuffer :=
  if k = 0 then freshReader stream cap
  else
    { source := stream, sourceBitOffset := 8 * k, bitBuffer := [stream.getD (k - 1) 0],
      bufferBitOffset := 8, bufferSize := 8, capacity := cap }

theorem lor_shiftLeft_eq_add (acc m k : Nat) (h : acc < 2 ^ k) :
    acc ||| (m <<< k) = acc + m * 2 ^ k := by
  rw [Nat.shiftLeft_eq, Nat.lor_comm, Nat.mul_comm, ← Nat.mul_add_lt_is_or h]
  omega

theorem and_127_eq_mod (b : Nat) : b &&& 127 = b % 128 := by
  have h := Nat.and_pow_two_sub_one_eq_mod b 7
  norm_num at h
  exact h

set_option maxRecDepth 4000 in
theorem byte_and_128 : ∀ b < 256, (b &&& 128 = 0 ↔ b < 128) := by decide

theorem readBytes_empty : readUnsignedLiteralBytes [] 0 8 0 = (0, 8, 0) := by
  rw [readUnsignedLiteralBytes]
  simp

theorem readBytes_consumed (b : Nat) : readUnsignedLiteralBytes [b] 8 8 0 = (8, 8, 0) := by
  rw [readUnsignedLiteralBytes]
  norm_num

theorem readBytes_one (b : Nat) : readUnsignedLiteralBytes [b] 0 8 0 = (8, 0, b) := by
  rw [readUnsignedLiteralBytes]
  rw [dif_pos (by norm_num)]
  rw [readUnsignedLiteralBytes]
  rw [dif_neg (by norm_num)]
  simp

theorem loadBitsLoop8 (stream : List Nat) (cap q : Nat) (hcap : cap ≠ 0) :
    loadBitsLoop stream cap 8 (8 * q) [] 0 0 0 =
      if q < stream.length then (8 * q + 8, [stream.getD q 0], 8, 8)
      else (8 * q, [], 0, 0) := by
  have hdiv : 8 * q / 8 = q := by omega
  rw [loadBitsLoop]
  by_cases hq : q < stream.length
  · rw [dif_pos (by simp [shouldRead, hdiv, hq]; omega)]
    rw [if_neg (by simp [Nat.mul_mod_right])]
    rw [loadBitsLoop]
    rw [dif_neg (by simp [shouldRead])]
    simp [hq, hdiv]
  · rw [dif_neg (by simp [shouldRead, hdiv, hq])]
    simp [hq]

theorem loadBits8_aligned (stream : List Nat) (cap q o s : Nat) (bb : List Nat)
    (hcap : cap ≠ 0) :
    loadBits
        { source := stream, sourceBitOffset := 8 * q, bitBuffer := bb,
          bufferBitOffset := o, bufferSize := s, capacity := cap } 8 false =
      if q < stream.length then
        (.ok,
          { source := stream, sourceBitOffset := 8 * q + 8, bitBuffer := [stream.getD q 0],
            bufferBitOffset := 0, bufferSize := 8, capacity := cap })
      else
        (.resourceExhausted,
          { source := stream, sourceBitOffset := 8 * q, bitBuffer := [],
            bufferBitOffset := 0, bufferSize := 0, capacity := cap }) := by
  rw [loadBits]
  simp only [discardAllBits, Bool.false_eq_true, false_and, if_false]
  rw [loadBitsLoop8 stream cap q hcap]
  by_cases hq : q < stream.length
  · simp [hq]
  · simp [hq, discardAllBits]

theorem readUnsignedLiteral64_canonical (stream : List Nat) (cap q s : Nat) (bb : List Nat)
    (o : Nat) (hcap : cap ≠ 0) (ho : canReadByteAligned o 8 = true)
    (hfirst : readUnsignedLiteralBytes bb o 8 0 = (o, 8, 0)) :
    readUnsignedLiteral64
        { source := stream, sourceBitOffset := 8 * q, bitBuffer := bb,
          bufferBitOffset := o, bufferSize := s, capacity := cap } 8 =
      if q < stream.length then
        (.ok,
          { source := stream, sourceBitOffset := 8 * q + 8, bitBuffer := [stream.getD q 0],
            bufferBitOffset := 8, bufferSize := 8, capacity := cap }, stream.getD q 0)
      else
        (.resourceExhausted,
          { source := stream, sourceBitOffset := 8 * q, bitBuffer := [],
            bufferBitOffset := 0, bufferSize := 0, capacity := cap }, 0) := by
  rw [readUnsignedLiteral64, readUnsignedLiteralInternal]
  simp only [if_neg (show ¬ (64 < 8) by norm_num), ho, if_true, hfirst]
  rw [if_pos (show (8 : Nat) ≠ 0 by norm_num)]
  rw [loadBits8_aligned stream cap q o s bb hcap]
  by_cases hq : q < stream.length
  · rw [if_pos hq, if_pos hq]
    simp only [canReadByteAligned]
    norm_num
    rw [readBytes_one]
    exact ⟨rfl, rfl⟩
  · rw [if_neg hq, if_neg hq]

theorem readerAt_step (stream : List Nat) (cap k : Nat) (hcap : cap ≠ 0) :
    readUnsignedLiteral64 (readerAt stream cap k) 8 =
      if k < stream.length then (.ok, readerAt stream cap (k + 1), stream.getD k 0)
      else (.resourceExhausted,
        { freshReader stream cap with sourceBitOffset := 8 * k }, 0) := by
  by_cases hk : k = 0
  · subst hk
    have hre : readerAt stream cap 0 =
        { source := stream, sourceBitOffset := 8 * 0, bitBuffer := [],
          bufferBitOffset := 0, bufferSize := 0, capacity := cap } := by
      simp [readerAt, freshReader]
    rw [hre, readUnsignedLiteral64_canonical stream cap 0 0 [] 0 hcap (by decide) readBytes_empty]
    by_cases hq : 0 < stream.length
    · rw [if_pos hq, if_pos hq]
      simp [readerAt]
    · rw [if_neg hq, if_neg hq]
      simp [freshReader]
  · have hre : readerAt stream cap k =
        { source := stream, sourceBitOffset := 8 * k, bitBuffer := [stream.getD (k - 1) 0],
          bufferBitOffset := 8, bufferSize := 8, capacity := cap } := by
      simp [readerAt, hk]
    rw [hre, readUnsignedLiteral64_canonical stream cap k 8 [stream.getD (k - 1) 0] 8 hcap
      (by decide) (readBytes_consumed _)]
    by_cases hq : k < stream.length
    · rw [if_pos hq, if_pos hq]
      simp only [readerAt, if_neg (Nat.succ_ne_zero k), Nat.add_sub_cancel]
      rw [show 8 * (k + 1) = 8 * k + 8 from by ring]
    · rw [if_neg hq, if_neg hq]
      simp [freshReader]

theorem getD_lt_256 (stream : List Nat) (i : Nat) (h256 : ∀ b ∈ stream, b < 256)
    (hi : i < stream.length) : stream.getD i 0 < 256 := by
  have : stream.getD i 0 ∈ stream := by
    rw [List.getD_eq_getElem stream 0 hi]
    exact List.getElem_mem hi
  exact h256 _ this

theorem uleb_loop_equiv (stream : List Nat) (cap : Nat) (hcap : cap ≠ 0)
    (h256 : ∀ b ∈ stream, b < 256) :
    ∀ n i acc, i + n = 8 → i < 8 → acc < 2 ^ (7 * i) →
      (accumulateUleb128Loop littleEndianAccumulator kMaxUleb128
          (readerAt stream cap i) i acc i).1 = (decodeUleb128Claim stream i acc).1 ∧
      (accumulateUleb128Loop littleEndianAccumulator kMaxUleb128
          (readerAt stream cap i) i acc i).2.2.1 = (decodeUleb128Claim stream i acc).2.1 ∧
      (accumulateUleb128Loop littleEndianAccumulator kMaxUleb128
          (readerAt stream cap i) i acc i).2.2.2 = (decodeUleb128Claim stream i acc).2.2 := by
  intro n
  induction n with
  | zero =>
    intro i acc hi hi8 hacc
    omega
  | succ n ih =>
    intro i acc hi hi8 hacc
    rw [accumulateUleb128Loop]
    rw [dif_pos (show i < kMaxLeb128Size from hi8)]
    rw [readerAt_step stream cap i hcap]
    rw [decodeUleb128Claim]
    by_cases hlen : i < stream.length
    · rw [if_pos hlen, if_pos hlen]
      dsimp only
      rw [if_neg (show ¬(StatusCode.ok ≠ StatusCode.ok) from by simp)]
      have hb256 : stream.getD i 0 < 256 := getD_lt_256 stream i h256 hlen
      have hLE : littleEndianAccumulator (stream.getD i 0) i acc =
          acc + stream.getD i 0 % 128 * 2 ^ (7 * i) := by
        rw [littleEndianAccumulator]
        rw [show (0x7f : Nat) = 127 from rfl, and_127_eq_mod]
        exact lor_shiftLeft_eq_add acc _ _ hacc
      by_cases hA : 8 ≤ i + 1 ∧ 128 ≤ stream.getD i 0
      · rw [dif_pos hA]
        rw [if_pos (show i = kMaxLeb128Size - 1 ∧ stream.getD i 0 &&& 128 ≠ 0 from by
          refine ⟨by simp [kMaxLeb128Size]; omega, fun hz => ?_⟩
          rw [(byte_and_128 _ hb256)] at hz
          omega)]
        exact ⟨rfl, rfl, rfl⟩
      · rw [dif_neg hA]
        rw [if_neg (show ¬(i = kMaxLeb128Size - 1 ∧ stream.getD i 0 &&& 128 ≠ 0) from by
          intro hz
          rcases hz with ⟨hz1, hz2⟩
          have : ¬ (stream.getD i 0 < 128) := fun hlt => hz2 ((byte_and_128 _ hb256).mpr hlt)
          simp [kMaxLeb128Size] at hz1
          omega)]
        rw [hLE]
        by_cases hB : 2 ^ 32 - 1 < acc + stream.getD i 0 % 128 * 2 ^ (7 * i)
        · rw [if_pos hB, if_pos (show kMaxUleb128 < _ from by
            rw [kMaxUleb128]; exact hB)]
          exact ⟨rfl, rfl, rfl⟩
        · rw [if_neg hB, if_neg (show ¬(kMaxUleb128 < _) from by
            rw [kMaxUleb128]; exact hB)]
          by_cases hC : stream.getD i 0 < 128
          · rw [dif_pos hC, if_pos ((byte_and_128 _ hb256).mpr hC)]
            exact ⟨rfl, rfl, rfl⟩
          · rw [dif_neg hC, if_neg (fun hz => hC ((byte_and_128 _ hb256).mp hz))]
            have hnext : acc + stream.getD i 0 % 128 * 2 ^ (7 * i) < 2 ^ (7 * (i + 1)) := by
              have hpow : 2 ^ (7 * (i + 1)) = 2 ^ (7 * i) * 128 := by
                rw [show 7 * (i + 1) = 7 * i + 7 from by ring, pow_add]
                norm_num
              have hmod : stream.getD i 0 % 128 ≤ 127 := by omega
              have hmul : stream.getD i 0 % 128 * 2 ^ (7 * i) ≤ 127 * 2 ^ (7 * i) :=
                Nat.mul_le_mul_right _ hmod
              have hx : (0:Nat) < 2 ^ (7 * i) := Nat.pos_pow_of_pos _ (by norm_num)
              omega
            exact ih (i + 1) (acc + stream.getD i 0 % 128 * 2 ^ (7 * i))
              (by omega) (by omega) hnext
    · rw [if_neg hlen, if_neg hlen]
      dsimp only
      rw [if_pos (show (StatusCode.resourceExhausted ≠ StatusCode.ok) from by simp)]
      exact ⟨rfl, rfl, rfl⟩

theorem decodeUleb128Claim_value_le (stream : List Nat) :
    ∀ n i acc, i + n = 8 → i < 8 → (decodeUleb128Claim stream i acc).2.1 ≤ 2 ^ 32 - 1 := by
  intro n
  induction n with
  | zero => omega
  | succ n ih =>
    intro i acc hi hi8
    rw [decodeUleb128Claim]
    by_cases hlen : i < stream.length
    · rw [if_pos hlen]
      by_cases hA : 8 ≤ i + 1 ∧ 128 ≤ stream.getD i 0
      · rw [dif_pos hA]
        norm_num
      · rw [dif_neg hA]
        by_cases hB : 2 ^ 32 - 1 < acc + stream.getD i 0 % 128 * 2 ^ (7 * i)
        · rw [if_pos hB]
          norm_num
        · rw [if_neg hB]
          by_cases hC : stream.getD i 0 < 128
          · rw [dif_pos hC]
            dsimp only
            omega
          · rw [dif_neg hC]
            exact ih (i + 1) _ (by omega) (by omega)
    · rw [if_neg hlen]
      norm_num

/-- C4 (amended): over any byte stream, `ReadULeb128` behaves exactly as
the claim describes — accumulating 7-bit groups little-endian, failing
with `InvalidArgument` exactly when the continuation bit is still set
after 8 bytes or the accumulated value exceeds `2^32 - 1`, and otherwise
returning the decoded value and the number of bytes consumed — except
that a stream which ends before the encoding terminates fails with
`ResourceExhausted`. -/
theorem readULeb128_matches_claim (stream : List Nat) (cap : Nat) (hcap : cap ≠ 0)
    (h256 : ∀ b ∈ stream, b < 256) :
    (readULeb128 (freshReader stream cap)).1 = (decodeUleb128Claim stream 0 0).1 ∧
    (readULeb128 (freshReader stream cap)).2.2.1 = (decodeUleb128Claim stream 0 0).2.1 ∧
    (readULeb128 (freshReader stream cap)).2.2.2 = (decodeUleb128Claim stream 0 0).2.2 := by
  have hre : freshReader stream cap = readerAt stream cap 0 := by simp [readerAt]
  have h := uleb_loop_equiv stream cap hcap h256 8 0 0 (by norm_num) (by norm_num) (by norm_num)
  have hle := decodeUleb128Claim_value_le stream 8 0 0 (by norm_num) (by norm_num)
  rw [readULeb128, accumulateUleb128OrIso14496_1Internal, hre]
  refine ⟨h.1, ?_, h.2.2⟩
  dsimp only
  rw [h.2.1]
  have : (decodeUleb128Claim stream 0 0).2.1 < 2 ^ 32 := by omega
  exact Nat.mod_eq_of_lt this

theorem decodeUleb128Claim_truncated :
    decodeUleb128Claim [128] 0 0 = (.resourceExhausted, 0, 1) := by
  rw [decodeUleb128Claim]
  norm_num
  rw [decodeUleb128Claim]
  norm_num

/-- C4 counterexample: on the one-byte stream `[0x80]` neither of the
claim's two `InvalidArgument` conditions holds, yet `ReadULeb128` does not
return a decoded value: it fails with `ResourceExhausted`. -/
theorem readULeb128_truncated_not_ok :
    (readULeb128 (freshReader [128] 1024)).1 = StatusCode.resourceExhausted ∧
      StatusCode.resourceExhausted ≠ StatusCode.ok ∧
      StatusCode.resourceExhausted ≠ StatusCode.invalidArgument := by
  have h := uleb_loop_equiv [128] 1024 (by norm_num) (by decide) 8 0 0
    (by norm_num) (by norm_num) (by norm_num)
  have hre : freshReader [128] 1024 = readerAt [128] 1024 0 := by simp [readerAt]
  refine ⟨?_, by decide, by decide⟩
  rw [readULeb128, accumulateUleb128OrIso14496_1Internal, hre]
  dsimp only
  rw [h.1, decodeUleb128Claim_truncated]

/-- Witness for C4's amended theorem on the stream `[0x87, 0x12]`. -/
theorem readULeb128_matches_claim_witness :
    (readULeb128 (freshReader [135, 18] 1024)).1 = (decodeUleb128Claim [135, 18] 0 0).1 ∧
    (readULeb128 (freshReader [135, 18] 1024)).2.2.1 = (decodeUleb128Claim [135, 18] 0 0).2.1 ∧
    (readULeb128 (freshReader [135, 18] 1024)).2.2.2 = (decodeUleb128Claim [135, 18] 0 0).2.2 :=
  readULeb128_matches_claim [135, 18] 1024 (by norm_num) (by decide)

/-! ## Param-definition collection (`CollectAndValidateParamDefinitions`,
`iamf/cli/cli_util.cc`) -/

/-- `ParamDefinition::ParameterDefinitionType`.  Beyond the three named
types the wire format admits extension values, carried as a tag. -/
inductive ParamDefinitionType where
  | mixGain
  | demixing
  | reconGain
  | reservedOther (tag : Nat)
  deriving DecidableEq, Repr

/-- Modelled from the spec: the subclass payload of a `ParamDefinition` —
the fields beyond the base class that the identical-bytes equivalence also
compares: the default mix gain, the default demixing info
(`dmixp_mode`/`default_w`), the recon-gain owner's `audio_element_id`, and
an extension's raw bytes (`iamf/obu/param_definitions.h` is not in the
tree; spec §3). Two definitions of different types are never equal. -/
inductive ParamDefinitionSubtype where
  | mixGain (defaultMixGain : Int)
  | demixing (defaultDmixpMode : Nat) (defaultW : Nat)
  | reconGain (audioElementId : Nat)
  | extension (paramDefinitionBytes : List Nat)
  deriving DecidableEq, Repr

/-- The decoded fields of a `ParamDefinition` (`iamf/obu/param_definitions.h`
is not in the tree; the spec §3 lists these fields and requires referenced
definitions to decode to identical bytes, embedded as structural equality
over the base fields plus the type-bearing subclass payload). -/
structure ParamDefinition where
  parameterId : Nat
  parameterRate : Nat
  paramDefinitionMode : Nat
  reserved : Nat
  duration : Nat
  constantSubblockDuration : Nat
  subblockDurations : List Nat
  subtypePayload : ParamDefinitionSubtype
  deriving DecidableEq, Repr

/-- One entry of `AudioElementObu::audio_element_params_`. -/
structure AudioElementParam where
  paramDefinitionType : ParamDefinitionType
  paramDefinition : ParamDefinition
  deriving DecidableEq, Repr

/-- The part of `AudioElementWithData` that
`CollectAndValidateParamDefinitions` reads. -/
structure AudioElementWithData where
  audioElementId : Nat
  audioElementParams : List AudioElementParam
  deriving DecidableEq, Repr

/-- One entry of `MixPresentationSubMix::audio_elements`. -/
structure SubMixAudioElement where
  elementMixGain : ParamDefinition
  deriving DecidableEq, Repr

/-- One `MixPresentationSubMix`. -/
structure MixPresentationSubMix where
  audioElements : List SubMixAudioElement
  outputMixGain : ParamDefinition
  deriving DecidableEq, Repr

/-- The part of `MixPresentationObu` read here. -/
structure MixPresentationForParams where
  mixPresentationId : Nat
  subMixes : List MixPresentationSubMix
  deriving DecidableEq, Repr

/-- Association-list view of the `param_definitions` hash map, keyed by
`parameter_id`; `insert` keeps the first definition seen for an id. -/
def lookupParam : List (Nat × ParamDefinition) → Nat → Option ParamDefinition
  | [], _ => none
  | (k, v) :: rest, id => if k = id then some v else lookupParam rest id

/-- The `insert_and_check_equivalence` lambda of
`CollectAndValidateParamDefinitions`: `insert` keeps an existing entry for
the id, and an existing inequivalent entry is an `InvalidArgument`. -/
def insertAndCheckEquivalence (m : List (Nat × ParamDefinition)) (pd : ParamDefinition) :
    StatusCode × List (Nat × ParamDefinition) :=
  match lookupParam m pd.parameterId with
  | none => (.ok, m ++ [(pd.parameterId, pd)])
  | some existing => if existing ≠ pd then (.invalidArgument, m) else (.ok, m)

/-- The inner loop over one audio element's `audio_element_params_`:
demixing and recon-gain definitions are inserted, a mix-gain definition is
an `InvalidArgument`, and unknown types are skipped with a warning. -/
def collectFromAudioElementParams :
    List AudioElementParam → List (Nat × ParamDefinition) →
      StatusCode × List (Nat × ParamDefinition)
  | [], m => (.ok, m)
  | p :: rest, m =>
    match p.paramDefinitionType with
    | .demixing =>
      let r := insertAndCheckEquivalence m p.paramDefinition
      if r.1 ≠ .ok then r else collectFromAudioElementParams rest r.2
    | .reconGain =>
      let r := insertAndCheckEquivalence m p.paramDefinition
      if r.1 ≠ .ok then r else collectFromAudioElementParams rest r.2
    | .mixGain => (.invalidArgument, m)
    | .reservedOther _ => collectFromAudioElementParams rest m

/-- The loop over all audio elements. -/
def collectFromAudioElements :
    List AudioElementWithData → List (Nat × ParamDefinition) →
      StatusCode × List (Nat × ParamDefinition)
  | [], m => (.ok, m)
  | ae :: rest, m =>
    let r := collectFromAudioElementParams ae.audioElementParams m
    if r.1 ≠ .ok then r else collectFromAudioElements rest r.2

/-- The loop over one sub-mix's audio elements (`element_mix_gain`s). -/
def collectFromSubMixElements :
    List SubMixAudioElement → List (Nat × ParamDefinition) →
      StatusCode × List (Nat × ParamDefinition)
  | [], m => (.ok, m)
  | sae :: rest, m =>
    let r := insertAndCheckEquivalence m sae.elementMixGain
    if r.1 ≠ .ok then r else collectFromSubMixElements rest r.2

/-- The loop over one mix presentation's sub-mixes: the element mix gains,
then the sub-mix's `output_mix_gain`. -/
def collectFromSubMixes :
    List MixPresentationSubMix → List (Nat × ParamDefinition) →
      StatusCode × List (Nat × ParamDefinition)
  | [], m => (.ok, m)
  | sm :: rest, m =>
    let r := collectFromSubMixElements sm.audioElements m
    if r.1 ≠ .ok then r
    else
      let r2 := insertAndCheckEquivalence r.2 sm.outputMixGain
      if r2.1 ≠ .ok then r2 else collectFromSubMixes rest r2.2

/-- The loop over all mix presentation OBUs. -/
def collectFromMixPresentations :
    List MixPresentationForParams → List (Nat × ParamDefinition) →
      StatusCode × List (Nat × ParamDefinition)
  | [], m => (.ok, m)
  | mp :: rest, m =>
    let r := collectFromSubMixes mp.subMixes m
    if r.1 ≠ .ok then r else collectFromMixPresentations rest r.2

/-- `CollectAndValidateParamDefinitions` from `iamf/cli/cli_util.cc`. -/
def collectAndValidateParamDefinitions (audioElements : List AudioElementWithData)
    (mixPresentationObus : List MixPresentationForParams) :
    StatusCode × List (Nat × ParamDefinition) :=
  let r := collectFromAudioElements audioElements []
  if r.1 ≠ .ok then r else collectFromMixPresentations mixPresentationObus r.2

/-- A flattened trace of the collection: `some d` is an insertion and
`none` marks the hard mix-gain rejection. -/
def runCollectSteps : List (Option ParamDefinition) → List (Nat × ParamDefinition) →
    StatusCode × List (Nat × ParamDefinition)
  | [], m => (.ok, m)
  | none :: _, m => (.invalidArgument, m)
  | some d :: rest, m =>
    let r := insertAndCheckEquivalence m d
    if r.1 ≠ .ok then r else runCollectSteps rest r.2

/-- Steps contributed by one audio-element param. -/
def paramSteps (p : AudioElementParam) : List (Option ParamDefinition) :=
  match p.paramDefinitionType with
  | .demixing => [some p.paramDefinition]
  | .reconGain => [some p.paramDefinition]
  | .mixGain => [none]
  | .reservedOther _ => []

/-- Steps contributed by one sub-mix. -/
def subMixSteps (sm : MixPresentationSubMix) : List (Option ParamDefinition) :=
  sm.audioElements.map (fun sae => some sae.elementMixGain) ++ [some sm.outputMixGain]

/-- Steps of the whole collection pass. -/
def allCollectSteps (aes : List AudioElementWithData)
    (mps : List MixPresentationForParams) : List (Option ParamDefinition) :=
  aes.flatMap (fun ae => ae.audioElementParams.flatMap paramSteps) ++
    mps.flatMap (fun mp => mp.subMixes.flatMap subMixSteps)

theorem runCollectSteps_append (xs ys : List (Option ParamDefinition))
    (m : List (Nat × ParamDefinition)) :
    runCollectSteps (xs ++ ys) m =
      (if (runCollectSteps xs m).1 ≠ .ok then runCollectSteps xs m
        else runCollectSteps ys (runCollectSteps xs m).2) := by
  induction xs generalizing m with
  | nil => simp [runCollectSteps]
  | cons s rest ih =>
    match s with
    | none => simp [runCollectSteps]
    | some d =>
      rw [List.cons_append, runCollectSteps, runCollectSteps]
      by_cases hr : (insertAndCheckEquivalence m d).1 ≠ .ok
      · simp only [if_pos hr]
      · simp only [if_neg hr]
        exact ih _

theorem collectFromAudioElementParams_eq_steps (ps : List AudioElementParam)
    (m : List (Nat × ParamDefinition)) :
    collectFromAudioElementParams ps m = runCollectSteps (ps.flatMap paramSteps) m := by
  induction ps generalizing m with
  | nil => simp [collectFromAudioElementParams, runCollectSteps]
  | cons p rest ih =>
    match hp : p.paramDefinitionType with
    | .demixing =>
      rw [collectFromAudioElementParams, hp]
      simp only [List.flatMap_cons, paramSteps, hp, List.cons_append, List.nil_append,
        runCollectSteps]
      by_cases hr : (insertAndCheckEquivalence m p.paramDefinition).1 ≠ .ok
      · simp only [if_pos hr]
      · simp only [if_neg hr]
        exact ih _
    | .reconGain =>
      rw [collectFromAudioElementParams, hp]
      simp only [List.flatMap_cons, paramSteps, hp, List.cons_append, List.nil_append,
        runCollectSteps]
      by_cases hr : (insertAndCheckEquivalence m p.paramDefinition).1 ≠ .ok
      · simp only [if_pos hr]
      · simp only [if_neg hr]
        exact ih _
    | .mixGain =>
      rw [collectFromAudioElementParams, hp]
      simp [List.flatMap_cons, paramSteps, hp, runCollectSteps]
    | .reservedOther tag =>
      rw [collectFromAudioElementParams, hp]
      simp only [List.flatMap_cons, paramSteps, hp, List.nil_append]
      exact ih m

theorem collectFromAudioElements_eq_steps (aes : List AudioElementWithData)
    (m : List (Nat × ParamDefinition)) :
    collectFromAudioElements aes m =
      runCollectSteps (aes.flatMap (fun ae => ae.audioElementParams.flatMap paramSteps)) m := by
  induction aes generalizing m with
  | nil => simp [collectFromAudioElements, runCollectSteps]
  | cons ae rest ih =>
    rw [collectFromAudioElements, List.flatMap_cons, runCollectSteps_append,
      collectFromAudioElementParams_eq_steps]
    by_cases hr : (runCollectSteps (ae.audioElementParams.flatMap paramSteps) m).1 ≠ .ok
    · simp only [if_pos hr]
    · simp only [if_neg hr]
      exact ih _

theorem collectFromSubMixElements_eq_steps (saes : List SubMixAudioElement)
    (m : List (Nat × ParamDefinition)) :
    collectFromSubMixElements saes m =
      runCollectSteps (saes.map (fun sae => some sae.elementMixGain)) m := by
  induction saes generalizing m with
  | nil => simp [collectFromSubMixElements, runCollectSteps]
  | cons sae rest ih =>
    rw [collectFromSubMixElements, List.map_cons, runCollectSteps]
    by_cases hr : (insertAndCheckEquivalence m sae.elementMixGain).1 ≠ .ok
    · simp only [if_pos hr]
    · simp only [if_neg hr]
      exact ih _

theorem collectFromSubMixes_eq_steps (sms : List MixPresentationSubMix)
    (m : List (Nat × ParamDefinition)) :
    collectFromSubMixes sms m = runCollectSteps (sms.flatMap subMixSteps) m := by
  induction sms generalizing m with
  | nil => simp [collectFromSubMixes, runCollectSteps]
  | cons sm rest ih =>
    rw [collectFromSubMixes, List.flatMap_cons, subMixSteps, List.append_assoc,
      runCollectSteps_append, collectFromSubMixElements_eq_steps]
    by_cases hr : (runCollectSteps (sm.audioElements.map fun sae =>
        some sae.elementMixGain) m).1 ≠ .ok
    · simp only [if_pos hr]
    · simp only [if_neg hr]
      rw [List.cons_append, List.nil_append, runCollectSteps]
      by_cases hr2 : (insertAndCheckEquivalence (runCollectSteps
          (sm.audioElements.map fun sae => some sae.elementMixGain) m).2
          sm.outputMixGain).1 ≠ .ok
      · simp only [if_pos hr2]
      · simp only [if_neg hr2]
        exact ih _

theorem collectFromMixPresentations_eq_steps (mps : List MixPresentationForParams)
    (m : List (Nat × ParamDefinition)) :
    collectFromMixPresentations mps m =
      runCollectSteps (mps.flatMap (fun mp => mp.subMixes.flatMap subMixSteps)) m := by
  induction mps generalizing m with
  | nil => simp [collectFromMixPresentations, runCollectSteps]
  | cons mp rest ih =>
    rw [collectFromMixPresentations, List.flatMap_cons, runCollectSteps_append,
      collectFromSubMixes_eq_steps]
    by_cases hr : (runCollectSteps (mp.subMixes.flatMap subMixSteps) m).1 ≠ .ok
    · simp only [if_pos hr]
    · simp only [if_neg hr]
      exact ih _

theorem collectAndValidateParamDefinitions_eq_steps (aes : List AudioElementWithData)
    (mps : List MixPresentationForParams) :
    collectAndValidateParamDefinitions aes mps = runCollectSteps (allCollectSteps aes mps) [] := by
  rw [collectAndValidateParamDefinitions, allCollectSteps, runCollectSteps_append,
    collectFromAudioElements_eq_steps, collectFromMixPresentations_eq_steps]

/-- The definitions the function collects (demixing and recon-gain
definitions of the audio elements; element and output mix gains of every
sub-mix), in processing order. -/
def collectedParamDefinitions (aes : List AudioElementWithData)
    (mps : List MixPresentationForParams) : List ParamDefinition :=
  (allCollectSteps aes mps).filterMap id

/-- All definitions of the list that share a `parameter_id` are equal. -/
def pairwiseCompatible (ds : List ParamDefinition) : Prop :=
  ∀ d ∈ ds, ∀ d' ∈ ds, d.parameterId = d'.parameterId → d = d'

/-- Every definition of `ds` agrees with whatever the map `m` already
holds under its `parameter_id`. -/
def compatWith (m : List (Nat × ParamDefinition)) (ds : List ParamDefinition) : Prop :=
  ∀ d ∈ ds, ∀ e, lookupParam m d.parameterId = some e → e = d

theorem lookupParam_append (m : List (Nat × ParamDefinition)) (k : Nat)
    (v : ParamDefinition) (id : Nat) :
    lookupParam (m ++ [(k, v)]) id =
      match lookupParam m id with
      | some e => some e
      | none => if k = id then some v else none := by
  induction m with
  | nil => simp [lookupParam]
  | cons kv rest ih =>
    rw [List.cons_append, lookupParam, lookupParam]
    by_cases hk : kv.1 = id
    · simp [hk]
    · simp only [if_neg hk]
      exact ih

theorem runCollectSteps_status (steps : List (Option ParamDefinition))
    (m : List (Nat × ParamDefinition)) :
    (runCollectSteps steps m).1 = .ok ∨ (runCollectSteps steps m).1 = .invalidArgument := by
  induction steps generalizing m with
  | nil => left; rfl
  | cons s rest ih =>
    match s with
    | none => right; rfl
    | some d =>
      rw [runCollectSteps]
      rw [insertAndCheckEquivalence]
      match hl : lookupParam m d.parameterId with
      | none => exact ih _
      | some e =>
        by_cases he : e ≠ d
        · simp only [if_pos he]
          right
          rfl
        · simp only [if_neg he]
          exact ih _

theorem runCollectSteps_ok_iff (steps : List (Option ParamDefinition))
    (m : List (Nat × ParamDefinition)) :
    (runCollectSteps steps m).1 = .ok ↔
      (∀ s ∈ steps, s ≠ none) ∧ compatWith m (steps.filterMap id) ∧
        pairwiseCompatible (steps.filterMap id) := by
  induction steps generalizing m with
  | nil =>
    simp [runCollectSteps, compatWith, pairwiseCompatible]
  | cons s rest ih =>
    match s with
    | none =>
      simp [runCollectSteps]
    | some d =>
      rw [runCollectSteps, insertAndCheckEquivalence]
      have hfm : (some d :: rest).filterMap (@id (Option ParamDefinition)) =
          d :: rest.filterMap id := by simp
      rw [hfm]
      match hl : lookupParam m d.parameterId with
      | none =>
        dsimp only
        rw [if_neg (by simp)]
        rw [ih]
        constructor
        · rintro ⟨hnone, hcompat, hpw⟩
          refine ⟨?_, ?_, ?_⟩
          · intro s hs
            rcases List.mem_cons.mp hs with rfl | h
            · simp
            · exact hnone s h
          · intro d' hd' e he
            rcases List.mem_cons.mp hd' with rfl | hmem
            · rw [hl] at he
              exact absurd he (by simp)
            · refine hcompat d' hmem e ?_
              rw [lookupParam_append, he]
          · intro x hx y hy hid
            rcases List.mem_cons.mp hx with rfl | hmx <;>
              rcases List.mem_cons.mp hy with rfl | hmy
            · rfl
            · refine hcompat y hmy x ?_
              rw [lookupParam_append, ← hid, hl]
              simp
            · refine (hcompat x hmx y ?_).symm
              rw [lookupParam_append, hid, hl]
              simp
            · exact hpw x hmx y hmy hid
        · rintro ⟨hnone, hcompat, hpw⟩
          refine ⟨fun s hs => hnone s (List.mem_cons_of_mem _ hs), ?_, ?_⟩
          · intro d' hd' e he
            rw [lookupParam_append] at he
            match hm : lookupParam m d'.parameterId with
            | some e' =>
              rw [hm] at he
              simp only [Option.some.injEq] at he
              subst he
              exact hcompat d' (List.mem_cons_of_mem _ hd') e' hm
            | none =>
              rw [hm] at he
              by_cases hk : d.parameterId = d'.parameterId
              · rw [if_pos hk] at he
                simp only [Option.some.injEq] at he
                subst he
                exact hpw d (List.mem_cons_self _ _) d' (List.mem_cons_of_mem _ hd') hk
              · rw [if_neg hk] at he
                exact absurd he (by simp)
          · intro x hx y hy hid
            exact hpw x (List.mem_cons_of_mem _ hx) y (List.mem_cons_of_mem _ hy) hid
      | some e =>
        by_cases he : e ≠ d
        · dsimp only
          rw [if_pos he, if_pos (by simp)]
          constructor
          · intro hok
            exact absurd hok (by simp)
          · rintro ⟨_, hcompat, _⟩
            exact absurd (hcompat d (List.mem_cons_self _ _) e hl) he
        · push_neg at he
          subst he
          dsimp only
          rw [if_neg (by simp), if_neg (by simp)]
          rw [ih]
          constructor
          · rintro ⟨hnone, hcompat, hpw⟩
            refine ⟨?_, ?_, ?_⟩
            · intro s hs
              rcases List.mem_cons.mp hs with rfl | h
              · simp
              · exact hnone s h
            · intro d' hd' e' he'
              rcases List.mem_cons.mp hd' with rfl | hmem
              · rw [hl] at he'
                simp only [Option.some.injEq] at he'
                exact he'.symm
              · exact hcompat d' hmem e' he'
            · intro x hx y hy hid
              rcases List.mem_cons.mp hx with rfl | hmx <;>
                rcases List.mem_cons.mp hy with rfl | hmy
              · rfl
              · refine hcompat y hmy x ?_
                rw [← hid, hl]
              · refine (hcompat x hmx y ?_).symm
                rw [hid, hl]
              · exact hpw x hmx y hmy hid
          · rintro ⟨hnone, hcompat, hpw⟩
            refine ⟨fun s hs => hnone s (List.mem_cons_of_mem _ hs), ?_, ?_⟩
            · intro d' hd' e' he'
              exact hcompat d' (List.mem_cons_of_mem _ hd') e' he'
            · intro x hx y hy hid
              exact hpw x (List.mem_cons_of_mem _ hx) y (List.mem_cons_of_mem _ hy) hid

theorem allCollectSteps_none_iff (aes : List AudioElementWithData)
    (mps : List MixPresentationForParams) :
    (∀ s ∈ allCollectSteps aes mps, s ≠ none) ↔
      ∀ ae ∈ aes, ∀ p ∈ ae.audioElementParams, p.paramDefinitionType ≠ .mixGain := by
  constructor
  · intro h ae hae p hp hmix
    refine h none ?_ rfl
    refine List.mem_append_left _ ?_
    rw [List.mem_flatMap]
    refine ⟨ae, hae, ?_⟩
    rw [List.mem_flatMap]
    exact ⟨p, hp, by rw [paramSteps, hmix]; simp⟩
  · intro h s hs hnone
    subst hnone
    rcases List.mem_append.mp hs with h1 | h2
    · rcases List.mem_flatMap.mp h1 with ⟨ae, hae, hin⟩
      rcases List.mem_flatMap.mp hin with ⟨p, hp, hps⟩
      match htype : p.paramDefinitionType with
      | .mixGain => exact h ae hae p hp htype
      | .demixing => rw [paramSteps, htype] at hps; simp at hps
      | .reconGain => rw [paramSteps, htype] at hps; simp at hps
      | .reservedOther tag => rw [paramSteps, htype] at hps; simp at hps
    · rcases List.mem_flatMap.mp h2 with ⟨mp, _, hin⟩
      rcases List.mem_flatMap.mp hin with ⟨sm, _, hsm⟩
      rw [subMixSteps] at hsm
      rcases List.mem_append.mp hsm with h3 | h3
      · rcases List.mem_map.mp h3 with ⟨sae, _, habs⟩
        cases habs
      · simp at h3

/-- C8 (amended): `CollectAndValidateParamDefinitions` succeeds if and
only if no audio element carries a mix-gain param definition and all
collected param definitions that share the same `parameter_id` are
pairwise equal; every failure is an `InvalidArgument`. -/
theorem collectAndValidateParamDefinitions_ok_iff (aes : List AudioElementWithData)
    (mps : List MixPresentationForParams) :
    ((collectAndValidateParamDefinitions aes mps).1 = .ok ↔
      (∀ ae ∈ aes, ∀ p ∈ ae.audioElementParams, p.paramDefinitionType ≠ .mixGain) ∧
        pairwiseCompatible (collectedParamDefinitions aes mps)) ∧
    ((collectAndValidateParamDefinitions aes mps).1 = .ok ∨
      (collectAndValidateParamDefinitions aes mps).1 = .invalidArgument) := by
  rw [collectAndValidateParamDefinitions_eq_steps]
  constructor
  · rw [runCollectSteps_ok_iff, allCollectSteps_none_iff, collectedParamDefinitions]
    have hcompat : compatWith [] ((allCollectSteps aes mps).filterMap id) := by
      intro d _ e he
      rw [lookupParam] at he
      cases he
    constructor
    · rintro ⟨a, _, c⟩
      exact ⟨a, c⟩
    · rintro ⟨a, c⟩
      exact ⟨a, hcompat, c⟩
  · exact runCollectSteps_status _ _

/-- A sample mix-gain param definition used by the C8 counterexample. -/
def sampleMixGainDefinition : ParamDefinition :=
  { parameterId := 9, parameterRate := 48000, paramDefinitionMode := 0,
    reserved := 0, duration := 8, constantSubblockDuration := 8,
    subblockDurations := [], subtypePayload := .mixGain 0 }

/-- An audio element carrying only that mix-gain param definition. -/
def audioElementWithMixGain : AudioElementWithData :=
  { audioElementId := 1,
    audioElementParams :=
      [{ paramDefinitionType := .mixGain, paramDefinition := sampleMixGainDefinition }] }

/-- C8 counterexample: an audio element carrying a single mix-gain param
definition makes the function fail with `InvalidArgument` even though all
param definitions sharing a `parameter_id` (there is only one definition
in the whole input) are pairwise equal. -/
theorem collectParamDefinitions_mixGain_fails :
    (collectAndValidateParamDefinitions [audioElementWithMixGain] []).1 =
      StatusCode.invalidArgument ∧
    pairwiseCompatible [sampleMixGainDefinition] := by
  constructor
  · rfl
  · intro d hd d' hd' _
    rcases List.mem_singleton.mp hd with rfl
    rcases List.mem_singleton.mp hd' with rfl
    rfl

/-! ## Trim validation (`ValidateAndGetCommonTrim`, `iamf/cli/cli_util.cc`) -/

/-- Per-frame data read by `ValidateAndGetCommonTrim`: the OBU's substream
id and the header's trim counters (all `uint32_t` on the wire). -/
structure AudioFrameTrim where
  substreamId : Nat
  trimStart : Nat
  trimEnd : Nat
  deriving DecidableEq, Repr

/-- The per-substream `TrimState`; the cumulative counters are `uint32_t`,
kept reduced modulo `2 ^ 32`. -/
structure TrimState where
  doneTrimmingFromStart : Bool
  cumStart : Nat
  cumEnd : Nat
  deriving DecidableEq, Repr

/-- The default-constructed `TrimState` that `operator[]` inserts. -/
def initialTrimState : TrimState :=
  { doneTrimmingFromStart := false, cumStart := 0, cumEnd := 0 }

/-- The update the loop applies to a substream's `TrimState` after the
frame `f` passes all four checks. -/
def trimStep (commonSamplesPerFrame : Nat) (ts : TrimState) (f : AudioFrameTrim) : TrimState :=
  { doneTrimmingFromStart :=
      ts.doneTrimmingFromStart || decide (f.trimStart < commonSamplesPerFrame),
    cumStart := (ts.cumStart + f.trimStart) % 2 ^ 32,
    cumEnd := (ts.cumEnd + f.trimEnd) % 2 ^ 32 }

/-- The loop of `ValidateAndGetCommonTrim` over the audio frames.  The
`substream_id_to_trim_state` hash map is modelled as its lookup function
plus the list of inserted keys. -/
def validateTrimLoop (commonSamplesPerFrame : Nat) :
    List AudioFrameTrim → (Nat → TrimState) → List Nat →
      StatusCode × (Nat → TrimState) × List Nat
  | [], find, keys => (.ok, find, keys)
  | f :: rest, find, keys =>
    let ts := find f.substreamId
    let keys' := if f.substreamId ∈ keys then keys else keys ++ [f.substreamId]
    if 0 < ts.cumEnd then (.invalidArgument, find, keys')
    else if ts.doneTrimmingFromStart ∧ 0 < f.trimStart then (.invalidArgument, find, keys')
    else if commonSamplesPerFrame < f.trimEnd + f.trimStart then
      (.invalidArgument, find, keys')
    else if commonSamplesPerFrame - (f.trimEnd + f.trimStart) = 0 ∧ 0 < f.trimEnd then
      (.invalidArgument, find, keys')
    else
      validateTrimLoop commonSamplesPerFrame rest
        (fun t => if t = f.substreamId then trimStep commonSamplesPerFrame ts f else find t)
        keys'

/-- `ValidateAndGetCommonTrim`: validate all frames, then check that every
substream accumulated the same cumulative trims as the first one. -/
def validateAndGetCommonTrim (commonSamplesPerFrame : Nat)
    (audioFrames : List AudioFrameTrim) : StatusCode × Nat × Nat :=
  let r := validateTrimLoop commonSamplesPerFrame audioFrames (fun _ => initialTrimState) []
  if r.1 ≠ .ok then (r.1, 0, 0)
  else
    match r.2.2 with
    | [] => (.ok, 0, 0)
    | k :: ks =>
      let commonEnd := (r.2.1 k).cumEnd
      let commonStart := (r.2.1 k).cumStart
      if (k :: ks).all (fun s =>
          decide ((r.2.1 s).cumEnd = commonEnd) && decide ((r.2.1 s).cumStart = commonStart)) then
        (.ok, commonEnd, commonStart)
      else (.invalidArgument, commonEnd, commonStart)

/-- Cumulative 32-bit trim-at-start total of substream `s` over `l`. -/
def cumStartOf (l : List AudioFrameTrim) (s : Nat) : Nat :=
  (((l.filter (fun g => g.substreamId = s)).map (fun g => g.trimStart)).sum) % 2 ^ 32

/-- Cumulative 32-bit trim-at-end total of substream `s` over `l`. -/
def cumEndOf (l : List AudioFrameTrim) (s : Nat) : Nat :=
  (((l.filter (fun g => g.substreamId = s)).map (fun g => g.trimEnd)).sum) % 2 ^ 32

/-- `done_trimming_from_start` after processing `l`: some frame of
substream `s` trimmed fewer than `commonSamplesPerFrame` samples. -/
def doneB (commonSamplesPerFrame : Nat) (l : List AudioFrameTrim) (s : Nat) : Bool :=
  l.any fun g => decide (g.substreamId = s) && decide (g.trimStart < commonSamplesPerFrame)

/-- The `TrimState` the loop has accumulated for `s` after processing `l`. -/
def stateFind (commonSamplesPerFrame : Nat) (l : List AudioFrameTrim) (s : Nat) : TrimState :=
  { doneTrimmingFromStart := doneB commonSamplesPerFrame l s,
    cumStart := cumStartOf l s, cumEnd := cumEndOf l s }

/-- The four per-frame checks of the loop, as the frame `f` is processed
with prefix `p` already accepted. -/
def firesAfter (commonSamplesPerFrame : Nat) (p : List AudioFrameTrim)
    (f : AudioFrameTrim) : Prop :=
  0 < cumEndOf p f.substreamId ∨
  (doneB commonSamplesPerFrame p f.substreamId = true ∧ 0 < f.trimStart) ∨
  commonSamplesPerFrame < f.trimEnd + f.trimStart ∨
  (f.trimEnd + f.trimStart = commonSamplesPerFrame ∧ 0 < f.trimEnd)

theorem forall_split_cons {α : Type} (P : List α → α → Prop) (x : α) (l : List α) :
    (∀ a y b, x :: l = a ++ y :: b → P a y) ↔
      P [] x ∧ ∀ a y b, l = a ++ y :: b → P (x :: a) y := by
  constructor
  · intro h
    exact ⟨h [] x l rfl, fun a y b hab => h (x :: a) y b (by rw [hab]; rfl)⟩
  · rintro ⟨h0, h⟩ a y b hab
    match a with
    | [] =>
      simp only [List.nil_append, List.cons.injEq] at hab
      obtain ⟨rfl, rfl⟩ := hab
      exact h0
    | x' :: a' =>
      rw [List.cons_append] at hab
      simp only [List.cons.injEq] at hab
      obtain ⟨rfl, hab⟩ := hab
      exact h a' y b hab

theorem stateFind_append_single (cs : Nat) (p : List AudioFrameTrim) (f : AudioFrameTrim) :
    (fun t => if t = f.substreamId then trimStep cs (stateFind cs p f.substreamId) f
      else stateFind cs p t) = stateFind cs (p ++ [f]) := by
  funext t
  by_cases ht : t = f.substreamId
  · subst ht
    rw [if_pos rfl]
    rw [trimStep, stateFind, stateFind]
    simp only [TrimState.mk.injEq]
    refine ⟨?_, ?_, ?_⟩
    · rw [doneB, doneB, List.any_append]
      simp
    · rw [cumStartOf, cumStartOf, List.filter_append]
      simp only [List.filter_cons, List.filter_nil, decide_eq_true_eq, if_pos rfl]
      rw [List.map_append, List.sum_append]
      simp [Nat.mod_add_mod]
    · rw [cumEndOf, cumEndOf, List.filter_append]
      simp only [List.filter_cons, List.filter_nil, decide_eq_true_eq, if_pos rfl]
      rw [List.map_append, List.sum_append]
      simp [Nat.mod_add_mod]
  · rw [if_neg ht]
    rw [stateFind, stateFind]
    simp only [TrimState.mk.injEq]
    have hne : f.substreamId ≠ t := fun h => ht h.symm
    have hfil : ∀ (l : List AudioFrameTrim),
        (l ++ [f]).filter (fun g => g.substreamId = t) =
          l.filter (fun g => g.substreamId = t) := by
      intro l
      rw [List.filter_append]
      simp [hne]
    refine ⟨?_, ?_, ?_⟩
    · rw [doneB, doneB, List.any_append]
      simp [hne]
    · rw [cumStartOf, cumStartOf, hfil]
    · rw [cumEndOf, cumEndOf, hfil]

theorem validateTrimLoop_spec (cs : Nat) :
    ∀ (fs p : List AudioFrameTrim) (keys : List Nat),
      (∀ s, s ∈ keys ↔ ∃ g ∈ p, g.substreamId = s) →
      (((validateTrimLoop cs fs (stateFind cs p) keys).1 = .ok ↔
          ∀ a f b, fs = a ++ f :: b → ¬ firesAfter cs (p ++ a) f) ∧
        ((validateTrimLoop cs fs (stateFind cs p) keys).1 = .ok →
          (validateTrimLoop cs fs (stateFind cs p) keys).2.1 = stateFind cs (p ++ fs) ∧
          (∀ s, s ∈ (validateTrimLoop cs fs (stateFind cs p) keys).2.2 ↔
            ∃ g ∈ p ++ fs, g.substreamId = s))) := by
  intro fs
  induction fs with
  | nil =>
    intro p keys hkeys
    rw [validateTrimLoop]
    refine ⟨?_, fun _ => ⟨by rw [List.append_nil], by simpa using hkeys⟩⟩
    simp only [true_iff]
    intro a f b hab
    exact absurd hab (by simp)
  | cons f rest ih =>
    intro p keys hkeys
    rw [validateTrimLoop]
    rw [forall_split_cons (fun a x => ¬ firesAfter cs (p ++ a) x) f rest]
    simp only [List.append_nil]
    by_cases h1 : 0 < (stateFind cs p f.substreamId).cumEnd
    · rw [if_pos h1]
      have hfire : firesAfter cs p f := Or.inl h1
      constructor
      · constructor
        · intro hok
          exact absurd hok (by simp)
        · rintro ⟨hnf, _⟩
          exact absurd hfire hnf
      · intro hok
        exact absurd hok (by simp)
    · rw [if_neg h1]
      by_cases h2 : (stateFind cs p f.substreamId).doneTrimmingFromStart = true ∧ 0 < f.trimStart
      · rw [if_pos h2]
        have hfire : firesAfter cs p f := Or.inr (Or.inl h2)
        constructor
        · constructor
          · intro hok
            exact absurd hok (by simp)
          · rintro ⟨hnf, _⟩
            exact absurd hfire hnf
        · intro hok
          exact absurd hok (by simp)
      · rw [if_neg h2]
        by_cases h3 : cs < f.trimEnd + f.trimStart
        · rw [if_pos h3]
          have hfire : firesAfter cs p f := Or.inr (Or.inr (Or.inl h3))
          constructor
          · constructor
            · intro hok
              exact absurd hok (by simp)
            · rintro ⟨hnf, _⟩
              exact absurd hfire hnf
          · intro hok
            exact absurd hok (by simp)
        · rw [if_neg h3]
          by_cases h4 : cs - (f.trimEnd + f.trimStart) = 0 ∧ 0 < f.trimEnd
          · rw [if_pos h4]
            have hfire : firesAfter cs p f :=
              Or.inr (Or.inr (Or.inr ⟨by omega, h4.2⟩))
            constructor
            · constructor
              · intro hok
                exact absurd hok (by simp)
              · rintro ⟨hnf, _⟩
                exact absurd hfire hnf
            · intro hok
              exact absurd hok (by simp)
          · rw [if_neg h4]
            have hnofire : ¬ firesAfter cs p f := by
              rw [firesAfter]
              push_neg
              exact ⟨Nat.not_lt.mp h1, fun hd => Nat.not_lt.mp (fun hc => h2 ⟨hd, hc⟩),
                Nat.not_lt.mp h3, fun ht => Nat.not_lt.mp (fun hf => h4 ⟨by omega, hf⟩)⟩
            rw [stateFind_append_single cs p f]
            have hkeys' : ∀ s,
                s ∈ (if f.substreamId ∈ keys then keys else keys ++ [f.substreamId]) ↔
                  ∃ g ∈ p ++ [f], g.substreamId = s := by
              intro s
              by_cases hf : f.substreamId ∈ keys
              · rw [if_pos hf]
                rw [hkeys s]
                constructor
                · rintro ⟨g, hg, rfl⟩
                  exact ⟨g, List.mem_append_left _ hg, rfl⟩
                · rintro ⟨g, hg, rfl⟩
                  rcases List.mem_append.mp hg with hg' | hg'
                  · exact ⟨g, hg', rfl⟩
                  · rcases List.mem_singleton.mp hg' with rfl
                    exact (hkeys _).mp hf
              · rw [if_neg hf]
                rw [List.mem_append, hkeys s, List.mem_singleton]
                constructor
                · rintro (⟨g, hg, rfl⟩ | rfl)
                  · exact ⟨g, List.mem_append_left _ hg, rfl⟩
                  · exact ⟨f, List.mem_append_right _ (by simp), rfl⟩
                · rintro ⟨g, hg, rfl⟩
                  rcases List.mem_append.mp hg with hg' | hg'
                  · exact Or.inl ⟨g, hg', rfl⟩
                  · rcases List.mem_singleton.mp hg' with rfl
                    exact Or.inr rfl
            have := ih (p ++ [f])
              (if f.substreamId ∈ keys then keys else keys ++ [f.substreamId]) hkeys'
            constructor
            · rw [this.1]
              constructor
              · intro h
                refine ⟨hnofire, fun a y b hab => ?_⟩
                have hh := h a y b hab
                rwa [← List.append_cons p f a] at hh
              · rintro ⟨_, h⟩ a y b hab
                rw [← List.append_cons p f a]
                exact h a y b hab
            · intro hok
              obtain ⟨hstate, hkeys2⟩ := this.2 hok
              refine ⟨?_, ?_⟩
              · rw [hstate, ← List.append_cons p f rest]
              · intro s
                rw [hkeys2 s, ← List.append_cons p f rest]

theorem validateTrimLoop_status (cs : Nat) :
    ∀ (fs : List AudioFrameTrim) (find : Nat → TrimState) (keys : List Nat),
      (validateTrimLoop cs fs find keys).1 = .ok ∨
        (validateTrimLoop cs fs find keys).1 = .invalidArgument := by
  intro fs
  induction fs with
  | nil => intro find keys; left; rfl
  | cons f rest ih =>
    intro find keys
    rw [validateTrimLoop]
    by_cases h1 : 0 < (find f.substreamId).cumEnd
    · rw [if_pos h1]; right; rfl
    · rw [if_neg h1]
      by_cases h2 : (find f.substreamId).doneTrimmingFromStart = true ∧ 0 < f.trimStart
      · rw [if_pos h2]; right; rfl
      · rw [if_neg h2]
        by_cases h3 : cs < f.trimEnd + f.trimStart
        · rw [if_pos h3]; right; rfl
        · rw [if_neg h3]
          by_cases h4 : cs - (f.trimEnd + f.trimStart) = 0 ∧ 0 < f.trimEnd
          · rw [if_pos h4]; right; rfl
          · rw [if_neg h4]
            exact ih _ _

theorem exists_first_split {α : Type} (P : α → Prop) (l : List α) (h : ∃ x ∈ l, P x) :
    ∃ a x b, l = a ++ x :: b ∧ P x ∧ ∀ y ∈ a, ¬ P y := by
  induction l with
  | nil => simp at h
  | cons z l' ih =>
    by_cases hz : P z
    · exact ⟨[], z, l', rfl, hz, by simp⟩
    · have h' : ∃ x ∈ l', P x := by
        rcases h with ⟨x, hx, hPx⟩
        rcases List.mem_cons.mp hx with rfl | hx'
        · exact absurd hPx hz
        · exact ⟨x, hx', hPx⟩
      rcases ih h' with ⟨a, x, b, heq, hPx, ha⟩
      refine ⟨z :: a, x, b, by rw [heq, List.cons_append], hPx, ?_⟩
      intro y hy
      rcases List.mem_cons.mp hy with rfl | hy'
      · exact hz
      · exact ha y hy'

/-- Amended condition 1: a frame with positive trim-at-end is followed by
any later frame of the same substream. -/
def e1Trim (fs : List AudioFrameTrim) : Prop :=
  ∃ a f b g c, fs = a ++ f :: b ++ g :: c ∧ g.substreamId = f.substreamId ∧ 0 < f.trimEnd

/-- Condition 2: a frame trims at the start after a frame of the same
substream already ended the trimmed-at-start prefix. -/
def e2Trim (cs : Nat) (fs : List AudioFrameTrim) : Prop :=
  ∃ a f b g c, fs = a ++ f :: b ++ g :: c ∧ g.substreamId = f.substreamId ∧
    f.trimStart < cs ∧ 0 < g.trimStart

/-- Condition 3: a frame's total trim exceeds the common frame size. -/
def e3Trim (cs : Nat) (fs : List AudioFrameTrim) : Prop :=
  ∃ a f b, fs = a ++ f :: b ∧ cs < f.trimEnd + f.trimStart

/-- Condition 4: a frame with positive trim-at-end is fully trimmed. -/
def e4Trim (cs : Nat) (fs : List AudioFrameTrim) : Prop :=
  ∃ a f b, fs = a ++ f :: b ∧ f.trimEnd + f.trimStart = cs ∧ 0 < f.trimEnd

/-- Condition 5 (cross-substream): two substreams disagree on their
cumulative 32-bit trim totals. -/
def e5Trim (fs : List AudioFrameTrim) : Prop :=
  ∃ f ∈ fs, ∃ g ∈ fs,
    cumEndOf fs f.substreamId ≠ cumEndOf fs g.substreamId ∨
    cumStartOf fs f.substreamId ≠ cumStartOf fs g.substreamId

/-- Some frame trips one of the loop's four per-frame checks. -/
def loopFailsTrim (cs : Nat) (fs : List AudioFrameTrim) : Prop :=
  ∃ a f b, fs = a ++ f :: b ∧ firesAfter cs a f

theorem cumEndOf_pos_exists (a : List AudioFrameTrim) (s : Nat)
    (h : 0 < cumEndOf a s) : ∃ g ∈ a, g.substreamId = s ∧ 0 < g.trimEnd := by
  by_contra hno
  push_neg at hno
  have hz : (((a.filter (fun g => g.substreamId = s)).map (fun g => g.trimEnd)).sum) = 0 := by
    apply List.sum_eq_zero
    intro x hx
    rcases List.mem_map.mp hx with ⟨g, hg, rfl⟩
    have := List.mem_filter.mp hg
    have hsub : g.substreamId = s := by simpa using this.2
    have := hno g this.1 hsub
    omega
  rw [cumEndOf, hz] at h
  simp at h

theorem doneB_true_exists (cs : Nat) (a : List AudioFrameTrim) (s : Nat)
    (h : doneB cs a s = true) : ∃ g ∈ a, g.substreamId = s ∧ g.trimStart < cs := by
  rw [doneB, List.any_eq_true] at h
  rcases h with ⟨g, hg, hcond⟩
  simp only [Bool.and_eq_true, decide_eq_true_eq] at hcond
  exact ⟨g, hg, hcond.1, hcond.2⟩

theorem loopFails_iff_conditions (cs : Nat) (fs : List AudioFrameTrim) (hcs : cs < 2 ^ 32) :
    loopFailsTrim cs fs ↔ e1Trim fs ∨ e2Trim cs fs ∨ e3Trim cs fs ∨ e4Trim cs fs := by
  constructor
  · rintro ⟨a, f, b, rfl, hfire⟩
    rcases hfire with h1 | ⟨h2a, h2b⟩ | h3 | h4
    · rcases cumEndOf_pos_exists a f.substreamId h1 with ⟨h, hha, hsub, hpos⟩
      rcases List.append_of_mem hha with ⟨a1, a2, rfl⟩
      refine Or.inl ⟨a1, h, a2, f, b, by simp, hsub.symm, hpos⟩
    · rcases doneB_true_exists cs a f.substreamId h2a with ⟨h, hha, hsub, hlt⟩
      rcases List.append_of_mem hha with ⟨a1, a2, rfl⟩
      refine Or.inr (Or.inl ⟨a1, h, a2, f, b, by simp, hsub.symm, hlt, h2b⟩)
    · exact Or.inr (Or.inr (Or.inl ⟨a, f, b, rfl, h3⟩))
    · exact Or.inr (Or.inr (Or.inr ⟨a, f, b, rfl, h4⟩))
  · rintro (he1 | he2 | he3 | he4)
    · by_cases he3' : e3Trim cs fs
      · rcases he3' with ⟨a, f, b, rfl, h⟩
        exact ⟨a, f, b, rfl, Or.inr (Or.inr (Or.inl h))⟩
      · have hall : ∀ x ∈ fs, x.trimEnd + x.trimStart ≤ cs := by
          intro x hx
          by_contra hgt
          rcases List.append_of_mem hx with ⟨u, v, rfl⟩
          exact he3' ⟨u, x, v, rfl, by omega⟩
        rcases he1 with ⟨a, f, b, g, c, heq, hsub, hpos⟩
        have heqP : fs = (a ++ [f]) ++ (b ++ g :: c) := by
          rw [heq]
          simp
        rcases exists_first_split
            (fun x => x.substreamId = f.substreamId ∧ 0 < x.trimEnd) (a ++ [f])
            ⟨f, by simp, rfl, hpos⟩ with ⟨a1, h, b1, heqF, ⟨hhsub, hhpos⟩, hfirst⟩
        have heqT : fs = a1 ++ h :: (b1 ++ (b ++ g :: c)) := by
          rw [heqP, heqF]
          simp
        rcases exists_first_split (fun x => x.substreamId = f.substreamId)
            (b1 ++ (b ++ g :: c)) ⟨g, by simp, hsub⟩ with ⟨r1, g', r2, heqR, hg'sub, hr1⟩
        have hsplit : fs = (a1 ++ h :: r1) ++ g' :: r2 := by
          rw [heqT, heqR]
          simp
        have hmemh : h ∈ fs := by
          have : h ∈ a ++ [f] := by
            rw [heqF]
            simp
          rw [heqP]
          exact List.mem_append_left _ this
        have hbound : h.trimEnd < 2 ^ 32 := by
          have := hall h hmemh
          omega
        refine ⟨a1 ++ h :: r1, g', r2, hsplit, Or.inl ?_⟩
        have hcum : cumEndOf (a1 ++ h :: r1) g'.substreamId = h.trimEnd % 2 ^ 32 := by
          rw [cumEndOf, List.filter_append, List.filter_cons]
          rw [hg'sub]
          have hfa1 : ∀ x ∈ a1.filter (fun x => decide (x.substreamId = f.substreamId)),
              x.trimEnd = 0 := by
            intro x hx
            have hm := List.mem_filter.mp hx
            have hxs : x.substreamId = f.substreamId := by simpa using hm.2
            have := hfirst x hm.1
            push_neg at this
            have := this hxs
            omega
          have hfr1 : r1.filter (fun x => decide (x.substreamId = f.substreamId)) = [] := by
            rw [List.filter_eq_nil_iff]
            intro x hx
            simpa using hr1 x hx
          rw [hfr1]
          rw [if_pos (by simpa using hhsub)]
          rw [List.map_append, List.sum_append]
          have hsz : ((a1.filter (fun x => decide (x.substreamId = f.substreamId))).map
              (fun g => g.trimEnd)).sum = 0 := by
            apply List.sum_eq_zero
            intro x hx
            rcases List.mem_map.mp hx with ⟨y, hy, rfl⟩
            exact hfa1 y hy
          rw [hsz]
          simp
        rw [hcum, Nat.mod_eq_of_lt hbound]
        exact hhpos
    · rcases he2 with ⟨a, f, b, g, c, rfl, hsub, hlt, hpos⟩
      refine ⟨a ++ f :: b, g, c, by simp, Or.inr (Or.inl ⟨?_, hpos⟩)⟩
      rw [doneB, List.any_eq_true]
      refine ⟨f, by simp, ?_⟩
      simp [hsub, hlt]
    · rcases he3 with ⟨a, f, b, rfl, h⟩
      exact ⟨a, f, b, rfl, Or.inr (Or.inr (Or.inl h))⟩
    · rcases he4 with ⟨a, f, b, rfl, h⟩
      exact ⟨a, f, b, rfl, Or.inr (Or.inr (Or.inr h))⟩

/-- C5 (amended): `ValidateAndGetCommonTrim` fails (always with
`InvalidArgument`) exactly when a frame with positive trim-at-end is
followed by any later frame on the same substream, or a frame trims at
the start after its substream's trimmed-at-start prefix ended, or a
frame's total trim exceeds the common frame size, or a frame with
positive trim-at-end is fully trimmed, or two substreams disagree on
their cumulative 32-bit trim totals; otherwise it succeeds. -/
theorem validateAndGetCommonTrim_fails_iff (cs : Nat) (fs : List AudioFrameTrim)
    (hcs : cs < 2 ^ 32) :
    ((validateAndGetCommonTrim cs fs).1 = .invalidArgument ↔
      e1Trim fs ∨ e2Trim cs fs ∨ e3Trim cs fs ∨ e4Trim cs fs ∨ e5Trim fs) ∧
    ((validateAndGetCommonTrim cs fs).1 = .ok ∨
      (validateAndGetCommonTrim cs fs).1 = .invalidArgument) := by
  have hstart : (fun _ : Nat => initialTrimState) = stateFind cs [] := by
    funext s
    simp [stateFind, initialTrimState, doneB, cumStartOf, cumEndOf]
  have hkeys0 : ∀ s : Nat,
      s ∈ ([] : List Nat) ↔ ∃ g ∈ ([] : List AudioFrameTrim), g.substreamId = s := by simp
  have hspec := validateTrimLoop_spec cs fs [] [] hkeys0
  rw [validateAndGetCommonTrim, hstart]
  by_cases hok : (validateTrimLoop cs fs (stateFind cs []) []).1 = .ok
  · rw [if_neg (fun hcon => hcon hok)]
    obtain ⟨hstate, hkeys⟩ := hspec.2 hok
    rw [List.nil_append] at hstate hkeys
    have hnl : ¬ loopFailsTrim cs fs := by
      rintro ⟨a, f, b, heq, hf⟩
      have := hspec.1.mp hok a f b heq
      rw [List.nil_append] at this
      exact this hf
    have hno4 : ¬ (e1Trim fs ∨ e2Trim cs fs ∨ e3Trim cs fs ∨ e4Trim cs fs) :=
      fun hd => hnl ((loopFails_iff_conditions cs fs hcs).mpr hd)
    rcases hK : (validateTrimLoop cs fs (stateFind cs []) []).2.2 with _ | ⟨k, ks⟩
    · dsimp only
      have hempty : fs = [] := by
        cases hfs : fs with
        | nil => rfl
        | cons x rest =>
          exfalso
          have := (hkeys x.substreamId).mpr ⟨x, by rw [hfs]; exact List.mem_cons_self _ _, rfl⟩
          rw [hK] at this
          simp at this
      constructor
      · constructor
        · intro habs
          exact absurd habs (by simp)
        · rintro (h | h | h | h | h)
          · exact absurd (Or.inl h) hno4
          · exact absurd (Or.inr (Or.inl h)) hno4
          · exact absurd (Or.inr (Or.inr (Or.inl h))) hno4
          · exact absurd (Or.inr (Or.inr (Or.inr h))) hno4
          · rcases h with ⟨f, hf, _⟩
            rw [hempty] at hf
            simp at hf
      · left
        rfl
    · dsimp only
      have hkmem : ∀ s ∈ k :: ks, ∃ g ∈ fs, g.substreamId = s := by
        intro s hs
        exact (hkeys s).mp (by rw [hK]; exact hs)
      by_cases hall : ((k :: ks).all fun s =>
          decide (((validateTrimLoop cs fs (stateFind cs []) []).2.1 s).cumEnd =
            ((validateTrimLoop cs fs (stateFind cs []) []).2.1 k).cumEnd) &&
          decide (((validateTrimLoop cs fs (stateFind cs []) []).2.1 s).cumStart =
            ((validateTrimLoop cs fs (stateFind cs []) []).2.1 k).cumStart)) = true
      · rw [if_pos hall]
        have halleq : ∀ s ∈ k :: ks,
            cumEndOf fs s = cumEndOf fs k ∧ cumStartOf fs s = cumStartOf fs k := by
          intro s hs
          have := List.all_eq_true.mp hall s hs
          rw [hstate] at this
          simp only [Bool.and_eq_true, decide_eq_true_eq] at this
          exact this
        constructor
        · constructor
          · intro habs
            exact absurd habs (by simp)
          · rintro (h | h | h | h | h)
            · exact absurd (Or.inl h) hno4
            · exact absurd (Or.inr (Or.inl h)) hno4
            · exact absurd (Or.inr (Or.inr (Or.inl h))) hno4
            · exact absurd (Or.inr (Or.inr (Or.inr h))) hno4
            · rcases h with ⟨f, hf, g, hg, hdiff⟩
              have hf' : f.substreamId ∈ k :: ks := by
                have := (hkeys f.substreamId).mpr ⟨f, hf, rfl⟩
                rwa [hK] at this
              have hg' : g.substreamId ∈ k :: ks := by
                have := (hkeys g.substreamId).mpr ⟨g, hg, rfl⟩
                rwa [hK] at this
              have h1 := halleq _ hf'
              have h2 := halleq _ hg'
              rcases hdiff with hd | hd
              · exact absurd (by rw [h1.1, h2.1]) hd
              · exact absurd (by rw [h1.2, h2.2]) hd
        · left
          rfl
      · rw [if_neg hall]
        have hdiff : ∃ s ∈ k :: ks,
            cumEndOf fs s ≠ cumEndOf fs k ∨ cumStartOf fs s ≠ cumStartOf fs k := by
          by_contra hno
          push_neg at hno
          apply hall
          rw [List.all_eq_true]
          intro s hs
          have hsk := hno s hs
          rw [hstate]
          simp only [Bool.and_eq_true, decide_eq_true_eq]
          exact ⟨hsk.1, hsk.2⟩
        constructor
        · constructor
          · intro _
            rcases hdiff with ⟨s, hs, hd⟩
            rcases hkmem s hs with ⟨f, hf, rfl⟩
            rcases hkmem k (List.mem_cons_self _ _) with ⟨g, hg, hgk⟩
            refine Or.inr (Or.inr (Or.inr (Or.inr ⟨f, hf, g, hg, ?_⟩)))
            rw [hgk]
            exact hd
          · intro _
            rfl
        · right
          rfl
  · rw [if_pos hok]
    have hinv := (validateTrimLoop_status cs fs (stateFind cs []) []).resolve_left hok
    have hfail : loopFailsTrim cs fs := by
      have hnall : ¬ ∀ (a : List AudioFrameTrim) (f : AudioFrameTrim) (b : List AudioFrameTrim),
          fs = a ++ f :: b → ¬ firesAfter cs ([] ++ a) f := fun hforall => hok (hspec.1.mpr hforall)
      push_neg at hnall
      rcases hnall with ⟨a, f, b, heq, hf⟩
      rw [List.nil_append] at hf
      exact ⟨a, f, b, heq, hf⟩
    have hd4 := (loopFails_iff_conditions cs fs hcs).mp hfail
    constructor
    · constructor
      · intro _
        rcases hd4 with h | h | h
        · exact Or.inl h
        · exact Or.inr (Or.inl h)
        · rcases h with h | h
          · exact Or.inr (Or.inr (Or.inl h))
          · exact Or.inr (Or.inr (Or.inr (Or.inl h)))
      · intro _
        exact hinv
    · right
      exact hinv

/-- The claim's first condition as stated: a frame with positive
trim-at-end followed by another frame that itself carries trim at the
end on the same substream. -/
def e1TrimClaim (fs : List AudioFrameTrim) : Prop :=
  ∃ a f b g c, fs = a ++ f :: b ++ g :: c ∧ g.substreamId = f.substreamId ∧
    0 < f.trimEnd ∧ 0 < g.trimEnd

/-- C5 counterexample: with frame size 8, a substream-1 frame trimming
one sample at the end followed by a substream-1 frame trimming nothing
satisfies none of the claim's four conditions, yet the function fails
with `InvalidArgument`. -/
theorem validateTrim_zeroTrailing_fails :
    (validateAndGetCommonTrim 8
        [⟨1, 0, 1⟩, ⟨1, 0, 0⟩]).1 = StatusCode.invalidArgument ∧
    ¬ (e1TrimClaim [⟨1, 0, 1⟩, ⟨1, 0, 0⟩] ∨ e2Trim 8 [⟨1, 0, 1⟩, ⟨1, 0, 0⟩] ∨
        e3Trim 8 [⟨1, 0, 1⟩, ⟨1, 0, 0⟩] ∨ e4Trim 8 [⟨1, 0, 1⟩, ⟨1, 0, 0⟩]) := by
  constructor
  · rfl
  · rintro (h | h | h | h)
    · rcases h with ⟨a, f, b, g, c, heq, _, _, hg⟩
      have hlen := congrArg List.length heq
      simp [List.length_append] at hlen
      have ha : a = [] := List.eq_nil_of_length_eq_zero (by omega)
      have hb : b = [] := List.eq_nil_of_length_eq_zero (by omega)
      have hc : c = [] := List.eq_nil_of_length_eq_zero (by omega)
      subst ha
      subst hb
      subst hc
      simp only [List.nil_append, List.cons_append, List.cons.injEq, and_true] at heq
      obtain ⟨rfl, rfl, _⟩ := heq
      simp at hg
    · rcases h with ⟨a, f, b, g, c, heq, _, _, hg⟩
      have hlen := congrArg List.length heq
      simp [List.length_append] at hlen
      have ha : a = [] := List.eq_nil_of_length_eq_zero (by omega)
      have hb : b = [] := List.eq_nil_of_length_eq_zero (by omega)
      have hc : c = [] := List.eq_nil_of_length_eq_zero (by omega)
      subst ha
      subst hb
      subst hc
      simp only [List.nil_append, List.cons_append, List.cons.injEq, and_true] at heq
      obtain ⟨rfl, rfl, _⟩ := heq
      simp at hg
    · rcases h with ⟨a, f, b, heq, hgt⟩
      rcases a with _ | ⟨z, a'⟩
      · simp only [List.nil_append, List.cons.injEq] at heq
        obtain ⟨rfl, _⟩ := heq
        simp at hgt
      · rw [List.cons_append] at heq
        simp only [List.cons.injEq] at heq
        obtain ⟨rfl, heq⟩ := heq
        rcases a' with _ | ⟨w, a''⟩
        · simp only [List.nil_append, List.cons.injEq] at heq
          obtain ⟨rfl, _⟩ := heq
          simp at hgt
        · rw [List.cons_append] at heq
          simp only [List.cons.injEq] at heq
          obtain ⟨_, heq⟩ := heq
          exact absurd heq (by simp)
    · rcases h with ⟨a, f, b, heq, heqcs, hg⟩
      rcases a with _ | ⟨z, a'⟩
      · simp only [List.nil_append, List.cons.injEq] at heq
        obtain ⟨rfl, _⟩ := heq
        simp at heqcs
      · rw [List.cons_append] at heq
        simp only [List.cons.injEq] at heq
        obtain ⟨rfl, heq⟩ := heq
        rcases a' with _ | ⟨w, a''⟩
        · simp only [List.nil_append, List.cons.injEq] at heq
          obtain ⟨rfl, _⟩ := heq
          simp at hg
        · rw [List.cons_append] at heq
          simp only [List.cons.injEq] at heq
          obtain ⟨_, heq⟩ := heq
          exact absurd heq (by simp)

/-- Witness for C5's amended theorem on a trimmed one-frame stream. -/
theorem validateAndGetCommonTrim_fails_iff_witness :
    (8 : Nat) < 2 ^ 32 ∧
      (((validateAndGetCommonTrim 8 [⟨1, 1, 2⟩]).1 = .invalidArgument ↔
          e1Trim [⟨1, 1, 2⟩] ∨ e2Trim 8 [⟨1, 1, 2⟩] ∨ e3Trim 8 [⟨1, 1, 2⟩] ∨
            e4Trim 8 [⟨1, 1, 2⟩] ∨ e5Trim [⟨1, 1, 2⟩]) ∧
        ((validateAndGetCommonTrim 8 [⟨1, 1, 2⟩]).1 = .ok ∨
          (validateAndGetCommonTrim 8 [⟨1, 1, 2⟩]).1 = .invalidArgument)) :=
  ⟨by norm_num, validateAndGetCommonTrim_fails_iff 8 [⟨1, 1, 2⟩] (by norm_num)⟩

/-! ## OBU sequencer

`iamf/cli/obu_sequencer.cc` is not in the source tree (only its tests
are), so the sequencer is modelled from the specification text (§3,
§4.4, §4.5, §7) and cross-checked against the shipped tests. -/

/-- Modelled from the spec: the `ArbitraryObu` insertion-hook enum of §3
(the implementation's `ArbitraryObu::InsertionHook` is not in the tree). -/
inductive InsertionHook where
  | afterIaSequenceHeader
  | afterCodecConfigs
  | afterAudioElements
  | afterMixPresentations
  | afterDescriptors
  | beforeParameterBlocksAtTick
  | afterParameterBlocksAtTick
  | afterAudioFramesAtTick
  deriving DecidableEq, Repr

/-- Modelled from the spec: an `ArbitraryObu` as the sequencer reads it —
OBU type, insertion hook, optional signed insertion tick, and the
`invalidate_temporal_unit` flag for negative testing (§3). -/
structure ArbitraryObuM where
  obuType : Nat
  insertionHook : InsertionHook
  insertionTick : Option Int
  invalidateTemporalUnit : Bool
  deriving DecidableEq, Repr

/-- Modelled from the spec: the profile enum of §6. -/
inductive Profile where
  | simple
  | base
  | baseEnhanced
  deriving DecidableEq, Repr

/-- The four-byte magic `iamf` (`IASequenceHeaderObu::kIaCode`). -/
def kIaCode : Nat := 0x69616D66

/-- Modelled from the spec: the `IASequenceHeader` fields the sequencer
reads — the magic and the two profiles (§3). -/
structure IASequenceHeaderM where
  iaCode : Nat
  primaryProfile : Profile
  additionalProfile : Profile
  deriving DecidableEq, Repr

/-- Modelled from the spec: the `CodecConfig` fields the sequencer reads —
its id and `num_samples_per_frame` (§3). -/
structure CodecConfigM where
  codecConfigId : Nat
  numSamplesPerFrame : Nat
  deriving DecidableEq, Repr

/-- Modelled from the spec: the fields of an `AudioFrame` the temporal-unit
assembler reads — element id, substream id and start timestamp (§4.4). -/
structure AudioFrameM where
  audioElementId : Nat
  substreamId : Nat
  startTimestamp : Int
  deriving DecidableEq, Repr

/-- Modelled from the spec: the fields of a `ParameterBlock` the assembler
reads — parameter id and start timestamp (§4.4). -/
structure ParameterBlockM where
  parameterId : Nat
  startTimestamp : Int
  deriving DecidableEq, Repr

/-- An OBU as it appears in the sequencer's output stream. -/
inductive SeqObu where
  | iaSequenceHeader
  | codecConfig (id : Nat)
  | audioElement (id : Nat)
  | mixPresentation (id : Nat)
  | temporalDelimiter
  | parameterBlock (pb : ParameterBlockM)
  | audioFrame (af : AudioFrameM)
  | arbitrary (a : ArbitraryObuM)
  deriving DecidableEq, Repr

/-- Sort a list ascending by a natural-number key (the sequencer's
"ascending id order by default"). -/
def sortByKey {α : Type} (key : α → Nat) (l : List α) : List α :=
  List.insertionSort (fun a b => key a ≤ key b) l

/-- Modelled from the spec: a profile admits a sub-mix's structural
complexity — multi-element mixes require at least Base profile (§3
invariants, §8 boundary cases). -/
def profileSupportsNumElements (p : Profile) (n : Nat) : Bool :=
  match p with
  | .simple => decide (n ≤ 1)
  | .base => true
  | .baseEnhanced => true

/-- Modelled from the spec: the profiles must cover every mix
presentation (§4.5): each sub-mix is admitted by the primary or the
additional profile. -/
def profilesCoverMixes (ia : IASequenceHeaderM)
    (mps : List MixPresentationForParams) : Bool :=
  mps.all fun mp => mp.subMixes.all fun sm =>
    profileSupportsNumElements ia.primaryProfile sm.audioElements.length ||
      profileSupportsNumElements ia.additionalProfile sm.audioElements.length

/-- The loop of `GetCommonSamplesPerFrame` after the first element. -/
def goCommonSamples : List CodecConfigM → Nat → StatusCode × Nat
  | [], n => (.ok, n)
  | c :: rest, n =>
    if n ≠ c.numSamplesPerFrame then (.unknown, n) else goCommonSamples rest n

/-- `GetCommonSamplesPerFrame` (`iamf/cli/cli_util.cc`): all codec configs
must agree on `num_samples_per_frame`; disagreement is `Unknown`. -/
def getCommonSamplesPerFrame : List CodecConfigM → StatusCode × Nat
  | [] => (.ok, 0)
  | c :: rest => goCommonSamples rest c.numSamplesPerFrame

/-- The arbitrary OBUs hooked at a given descriptor position, in input
order. -/
def arbitraryAt (arbs : List ArbitraryObuM) (h : InsertionHook) : List SeqObu :=
  (arbs.filter fun a => a.insertionHook = h).map SeqObu.arbitrary

/-- Modelled from the spec: `ObuSequencerBase::WriteDescriptorObus` —
validate the prologue (magic, profile coverage, param-definition
equivalence, common samples per frame), then emit the IA sequence header,
codec configs, audio elements and mix presentations in ascending id
order, with the descriptor-hooked arbitrary OBUs interleaved;
`after-Descriptors` arbitrary OBUs are not emitted (§4.5). -/
def writeDescriptorObus (ia : IASequenceHeaderM) (codecConfigs : List CodecConfigM)
    (audioElements : List AudioElementWithData)
    (mixPresentations : List MixPresentationForParams)
    (arbitraryObus : List ArbitraryObuM) : StatusCode × List SeqObu :=
  if ia.iaCode ≠ kIaCode then (.invalidArgument, [])
  else if profilesCoverMixes ia mixPresentations = false then (.invalidArgument, [])
  else if (collectAndValidateParamDefinitions audioElements mixPresentations).1 ≠ .ok then
    ((collectAndValidateParamDefinitions audioElements mixPresentations).1, [])
  else if (getCommonSamplesPerFrame codecConfigs).1 ≠ .ok then
    ((getCommonSamplesPerFrame codecConfigs).1, [])
  else
    (.ok,
      [SeqObu.iaSequenceHeader] ++
        arbitraryAt arbitraryObus .afterIaSequenceHeader ++
        (sortByKey (fun c => c.codecConfigId) codecConfigs).map
          (fun c => SeqObu.codecConfig c.codecConfigId) ++
        arbitraryAt arbitraryObus .afterCodecConfigs ++
        (sortByKey (fun ae => ae.audioElementId) audioElements).map
          (fun ae => SeqObu.audioElement ae.audioElementId) ++
        arbitraryAt arbitraryObus .afterAudioElements ++
        (sortByKey (fun mp => mp.mixPresentationId) mixPresentations).map
          (fun mp => SeqObu.mixPresentation mp.mixPresentationId) ++
        arbitraryAt arbitraryObus .afterMixPresentations)

/-- Modelled from the spec: a temporal unit as assembled by
`GenerateTemporalUnitMap` — the audio frames, parameter blocks and
tick-bound arbitrary OBUs sharing one start timestamp (§4.4). -/
structure TemporalUnitM where
  audioFrames : List AudioFrameM
  parameterBlocks : List ParameterBlockM
  arbitraryObus : List ArbitraryObuM
  deriving DecidableEq, Repr

/-- Modelled from the spec: `ObuSequencerBase::WriteTemporalUnit` — an
arbitrary OBU flagged `invalidate_temporal_unit` fails the unit;
otherwise emit the optional temporal delimiter, then the tick-hooked
arbitrary OBUs interleaved with the parameter blocks and audio frames in
the §4.5 per-unit order. -/
def writeTemporalUnit (includeTemporalDelimiters : Bool) (u : TemporalUnitM) :
    StatusCode × List SeqObu :=
  if u.arbitraryObus.any (fun a => a.invalidateTemporalUnit) = true then
    (.invalidArgument, [])
  else
    (.ok,
      (if includeTemporalDelimiters then [SeqObu.temporalDelimiter] else []) ++
        arbitraryAt u.arbitraryObus .beforeParameterBlocksAtTick ++
        u.parameterBlocks.map SeqObu.parameterBlock ++
        arbitraryAt u.arbitraryObus .afterParameterBlocksAtTick ++
        u.audioFrames.map SeqObu.audioFrame ++
        arbitraryAt u.arbitraryObus .afterAudioFramesAtTick)

/-- Modelled from the spec: the three insertion hooks bound to a
temporal-unit tick rather than to the descriptor prologue (§3). -/
def tickBound (h : InsertionHook) : Bool :=
  match h with
  | .beforeParameterBlocksAtTick => true
  | .afterParameterBlocksAtTick => true
  | .afterAudioFramesAtTick => true
  | _ => false

/-- Frame order inside a temporal unit: primarily ascending
`audio_element_id`, secondarily ascending `substream_id`. -/
def afLexLe (a b : AudioFrameM) : Prop :=
  a.audioElementId < b.audioElementId ∨
    (a.audioElementId = b.audioElementId ∧ a.substreamId ≤ b.substreamId)

instance : DecidableRel afLexLe := fun a b => by
  unfold afLexLe
  exact inferInstance

instance : IsTotal AudioFrameM afLexLe :=
  ⟨fun a b => by unfold afLexLe; omega⟩

instance : IsTrans AudioFrameM afLexLe :=
  ⟨fun a b c hab hbc => by unfold afLexLe at hab hbc ⊢; omega⟩

/-- Sort a bucket's audio frames by `(audio_element_id, substream_id)`. -/
def sortAudioFrames (l : List AudioFrameM) : List AudioFrameM :=
  List.insertionSort afLexLe l

/-- Sort a finished bucket the way the assembler hands it to the
sequencer: frames by `(audio_element_id, substream_id)`, parameter blocks
by `parameter_id`; arbitrary OBUs keep insertion order. -/
def sortUnit (u : TemporalUnitM) : TemporalUnitM :=
  ⟨sortAudioFrames u.audioFrames,
    sortByKey (fun pb => pb.parameterId) u.parameterBlocks,
    u.arbitraryObus⟩

def emptyUnit : TemporalUnitM := ⟨[], [], []⟩

/-- Look a temporal unit up by timestamp in the bucket map (the model of
`temporal_unit_map.find`). -/
def findUnit (m : List (Int × TemporalUnitM)) (t : Int) : Option TemporalUnitM :=
  match m with
  | [] => none
  | (k, u) :: rest => if k = t then some u else findUnit rest t

/-- Update (creating on demand) the bucket at a timestamp — the model of
`temporal_unit_map[timestamp]` on a default-constructing map. -/
def updateBucket (m : List (Int × TemporalUnitM)) (t : Int)
    (f : TemporalUnitM → TemporalUnitM) : List (Int × TemporalUnitM) :=
  match m with
  | [] => [(t, f emptyUnit)]
  | (k, u) :: rest => if k = t then (k, f u) :: rest else (k, u) :: updateBucket rest t f

/-- Modelled from the spec: append an audio frame to the bucket keyed by
its start timestamp (§4.4). -/
def addAudioFrame (m : List (Int × TemporalUnitM)) (af : AudioFrameM) :
    List (Int × TemporalUnitM) :=
  updateBucket m af.startTimestamp fun u =>
    ⟨u.audioFrames ++ [af], u.parameterBlocks, u.arbitraryObus⟩

/-- Modelled from the spec: append a parameter block to the bucket keyed
by its start timestamp (§4.4). -/
def addParameterBlock (m : List (Int × TemporalUnitM)) (pb : ParameterBlockM) :
    List (Int × TemporalUnitM) :=
  updateBucket m pb.startTimestamp fun u =>
    ⟨u.audioFrames, u.parameterBlocks ++ [pb], u.arbitraryObus⟩

/-- Modelled from the spec and its tests: an arbitrary OBU carrying an
insertion tick joins the bucket keyed by that tick regardless of its hook
(`CreatesTemporalUnitsForEachInsertionTick` places a descriptor-hooked
OBU with tick 99 in bucket 99); one without a tick is silently dropped
(`OmitsArbitraryObusWithNoInsertionTick`). -/
def addArbitrary (m : List (Int × TemporalUnitM)) (a : ArbitraryObuM) :
    List (Int × TemporalUnitM) :=
  match a.insertionTick with
  | some t =>
    updateBucket m t fun u =>
      ⟨u.audioFrames, u.parameterBlocks, u.arbitraryObus ++ [a]⟩
  | none => m

/-- The bucket map before the final per-bucket sorting pass. -/
def rawTemporalUnitMap (afs : List AudioFrameM) (pbs : List ParameterBlockM)
    (arbs : List ArbitraryObuM) : List (Int × TemporalUnitM) :=
  arbs.foldl addArbitrary (pbs.foldl addParameterBlock (afs.foldl addAudioFrame []))

/-- Modelled from the spec: `GenerateTemporalUnitMap` — bucket the audio
frames, parameter blocks and tick-bound arbitrary OBUs by start
timestamp, then sort each bucket's frames by
`(audio_element_id, substream_id)` and its parameter blocks by
`parameter_id` (§4.4). -/
def generateTemporalUnitMap (afs : List AudioFrameM) (pbs : List ParameterBlockM)
    (arbs : List ArbitraryObuM) : List (Int × TemporalUnitM) :=
  (rawTemporalUnitMap afs pbs arbs).map fun p => (p.1, sortUnit p.2)

/-- Appending audio frames to an optional bucket, as a map on lookups. -/
def pushAFs (o : Option TemporalUnitM) (l : List AudioFrameM) : Option TemporalUnitM :=
  if l = [] then o
  else
    some ⟨(o.getD emptyUnit).audioFrames ++ l, (o.getD emptyUnit).parameterBlocks,
      (o.getD emptyUnit).arbitraryObus⟩

/-- Appending parameter blocks to an optional bucket, as a map on lookups. -/
def pushPBs (o : Option TemporalUnitM) (l : List ParameterBlockM) : Option TemporalUnitM :=
  if l = [] then o
  else
    some ⟨(o.getD emptyUnit).audioFrames, (o.getD emptyUnit).parameterBlocks ++ l,
      (o.getD emptyUnit).arbitraryObus⟩

/-- Appending arbitrary OBUs to an optional bucket, as a map on lookups. -/
def pushArbs (o : Option TemporalUnitM) (l : List ArbitraryObuM) : Option TemporalUnitM :=
  if l = [] then o
  else
    some ⟨(o.getD emptyUnit).audioFrames, (o.getD emptyUnit).parameterBlocks,
      (o.getD emptyUnit).arbitraryObus ++ l⟩

theorem sortByKey_perm {α : Type} (key : α → Nat) (l : List α) :
    (sortByKey key l).Perm l :=
  List.perm_insertionSort _ _

theorem sortByKey_sorted {α : Type} (key : α → Nat) (l : List α) :
    List.Sorted (fun a b => key a ≤ key b) (sortByKey key l) := by
  haveI : IsTotal α (fun a b => key a ≤ key b) := ⟨fun a b => Nat.le_total _ _⟩
  haveI : IsTrans α (fun a b => key a ≤ key b) := ⟨fun _ _ _ => Nat.le_trans⟩
  exact List.sorted_insertionSort _ _

/-- C1: for every descriptor set `WriteDescriptorObus` accepts, the
emitted stream is exactly the IA sequence header, the after-header
arbitrary OBUs, the codec configs ascending by id, the after-codec-config
arbitrary OBUs, the audio elements ascending by id, the
after-audio-element arbitrary OBUs, the mix presentations ascending by
id, and the after-mix-presentation arbitrary OBUs; `after-Descriptors`
arbitrary OBUs are never emitted. -/
theorem writeDescriptorObus_order (ia : IASequenceHeaderM) (ccs : List CodecConfigM)
    (aes : List AudioElementWithData) (mps : List MixPresentationForParams)
    (arbs : List ArbitraryObuM)
    (h : (writeDescriptorObus ia ccs aes mps arbs).1 = .ok) :
    ∃ (ccs' : List CodecConfigM) (aes' : List AudioElementWithData)
      (mps' : List MixPresentationForParams),
      ccs'.Perm ccs ∧ aes'.Perm aes ∧ mps'.Perm mps ∧
      List.Sorted (fun a b => a.codecConfigId ≤ b.codecConfigId) ccs' ∧
      List.Sorted (fun a b => a.audioElementId ≤ b.audioElementId) aes' ∧
      List.Sorted (fun a b => a.mixPresentationId ≤ b.mixPresentationId) mps' ∧
      (writeDescriptorObus ia ccs aes mps arbs).2 =
        [SeqObu.iaSequenceHeader] ++ arbitraryAt arbs .afterIaSequenceHeader ++
          ccs'.map (fun c => SeqObu.codecConfig c.codecConfigId) ++
          arbitraryAt arbs .afterCodecConfigs ++
          aes'.map (fun ae => SeqObu.audioElement ae.audioElementId) ++
          arbitraryAt arbs .afterAudioElements ++
          mps'.map (fun mp => SeqObu.mixPresentation mp.mixPresentationId) ++
          arbitraryAt arbs .afterMixPresentations ∧
      (∀ a ∈ arbs, a.insertionHook = .afterDescriptors →
        SeqObu.arbitrary a ∉ (writeDescriptorObus ia ccs aes mps arbs).2) := by
  rw [writeDescriptorObus] at h ⊢
  by_cases h1 : ia.iaCode ≠ kIaCode
  · rw [if_pos h1] at h
    exact absurd h (by simp)
  rw [if_neg h1] at h ⊢
  by_cases h2 : profilesCoverMixes ia mps = false
  · rw [if_pos h2] at h
    exact absurd h (by simp)
  rw [if_neg h2] at h ⊢
  by_cases h3 : (collectAndValidateParamDefinitions aes mps).1 ≠ .ok
  · rw [if_pos h3] at h
    exact absurd h h3
  rw [if_neg h3] at h ⊢
  by_cases h4 : (getCommonSamplesPerFrame ccs).1 ≠ .ok
  · rw [if_pos h4] at h
    exact absurd h h4
  rw [if_neg h4] at h ⊢
  refine ⟨sortByKey (fun c => c.codecConfigId) ccs,
    sortByKey (fun ae => ae.audioElementId) aes,
    sortByKey (fun mp => mp.mixPresentationId) mps,
    sortByKey_perm _ _, sortByKey_perm _ _, sortByKey_perm _ _,
    sortByKey_sorted _ _, sortByKey_sorted _ _, sortByKey_sorted _ _, rfl, ?_⟩
  intro a _ hhook hmem
  simp only [List.mem_append, arbitraryAt, List.mem_map, List.mem_filter,
    List.mem_singleton, decide_eq_true_eq] at hmem
  rcases hmem with ((((((h' | h') | h') | h') | h') | h') | h') | h'
  · cases h'
  · rcases h' with ⟨a', ⟨_, ha'⟩, heq⟩
    cases heq
    rw [hhook] at ha'
    cases ha'
  · rcases h' with ⟨c, _, heq⟩
    cases heq
  · rcases h' with ⟨a', ⟨_, ha'⟩, heq⟩
    cases heq
    rw [hhook] at ha'
    cases ha'
  · rcases h' with ⟨ae, _, heq⟩
    cases heq
  · rcases h' with ⟨a', ⟨_, ha'⟩, heq⟩
    cases heq
    rw [hhook] at ha'
    cases ha'
  · rcases h' with ⟨mp, _, heq⟩
    cases heq
  · rcases h' with ⟨a', ⟨_, ha'⟩, heq⟩
    cases heq
    rw [hhook] at ha'
    cases ha'

/-- Witness for C1's theorem on a minimal accepted descriptor set. -/
theorem writeDescriptorObus_order_witness :
    (writeDescriptorObus ⟨kIaCode, .simple, .base⟩ [] [] []
        [⟨25, .afterIaSequenceHeader, none, false⟩]).1 = .ok ∧
      ∃ (ccs' : List CodecConfigM) (aes' : List AudioElementWithData)
        (mps' : List MixPresentationForParams),
        List.Perm ccs' [] ∧ List.Perm aes' [] ∧ List.Perm mps' [] ∧
        List.Sorted (fun a b => a.codecConfigId ≤ b.codecConfigId) ccs' ∧
        List.Sorted (fun a b => a.audioElementId ≤ b.audioElementId) aes' ∧
        List.Sorted (fun a b => a.mixPresentationId ≤ b.mixPresentationId) mps' ∧
        (writeDescriptorObus ⟨kIaCode, .simple, .base⟩ [] [] []
            [⟨25, .afterIaSequenceHeader, none, false⟩]).2 =
          [SeqObu.iaSequenceHeader] ++
            arbitraryAt [⟨25, .afterIaSequenceHeader, none, false⟩] .afterIaSequenceHeader ++
            ccs'.map (fun c => SeqObu.codecConfig c.codecConfigId) ++
            arbitraryAt [⟨25, .afterIaSequenceHeader, none, false⟩] .afterCodecConfigs ++
            aes'.map (fun ae => SeqObu.audioElement ae.audioElementId) ++
            arbitraryAt [⟨25, .afterIaSequenceHeader, none, false⟩] .afterAudioElements ++
            mps'.map (fun mp => SeqObu.mixPresentation mp.mixPresentationId) ++
            arbitraryAt [⟨25, .afterIaSequenceHeader, none, false⟩] .afterMixPresentations ∧
        (∀ a ∈ [(⟨25, .afterIaSequenceHeader, none, false⟩ : ArbitraryObuM)],
          a.insertionHook = .afterDescriptors →
            SeqObu.arbitrary a ∉ (writeDescriptorObus ⟨kIaCode, .simple, .base⟩ [] [] []
              [⟨25, .afterIaSequenceHeader, none, false⟩]).2) :=
  ⟨rfl, writeDescriptorObus_order ⟨kIaCode, .simple, .base⟩ [] [] []
    [⟨25, .afterIaSequenceHeader, none, false⟩] rfl⟩

/-- C2: every temporal unit `WriteTemporalUnit` writes comes out in
exactly this order: the optional temporal delimiter, then the
before-ParameterBlocks-at-tick arbitrary OBUs, the unit's parameter
blocks, the after-ParameterBlocks-at-tick arbitrary OBUs, the unit's
audio frames, and the after-AudioFrames-at-tick arbitrary OBUs; a
written unit carries no `invalidate_temporal_unit` OBU. -/
theorem writeTemporalUnit_order (d : Bool) (u : TemporalUnitM)
    (h : (writeTemporalUnit d u).1 = .ok) :
    (writeTemporalUnit d u).2 =
      (if d then [SeqObu.temporalDelimiter] else []) ++
        arbitraryAt u.arbitraryObus .beforeParameterBlocksAtTick ++
        u.parameterBlocks.map SeqObu.parameterBlock ++
        arbitraryAt u.arbitraryObus .afterParameterBlocksAtTick ++
        u.audioFrames.map SeqObu.audioFrame ++
        arbitraryAt u.arbitraryObus .afterAudioFramesAtTick ∧
      ∀ a ∈ u.arbitraryObus, a.invalidateTemporalUnit = false := by
  rw [writeTemporalUnit] at h ⊢
  by_cases hinv : u.arbitraryObus.any (fun a => a.invalidateTemporalUnit) = true
  · rw [if_pos hinv] at h
    exact absurd h (by simp)
  · rw [if_neg hinv]
    refine ⟨rfl, fun a ha => ?_⟩
    simp only [List.any_eq_true, not_exists, not_and] at hinv
    exact Bool.eq_false_iff.mpr fun hc => hinv a ha hc

/-- Witness for C2's theorem on a one-frame unit with a
before-ParameterBlocks arbitrary OBU and delimiters enabled. -/
theorem writeTemporalUnit_order_witness :
    (writeTemporalUnit true
        ⟨[⟨1, 2, 0⟩], [⟨7, 0⟩], [⟨25, .beforeParameterBlocksAtTick, some 0, false⟩]⟩).1 =
      .ok ∧
      ((writeTemporalUnit true
          ⟨[⟨1, 2, 0⟩], [⟨7, 0⟩], [⟨25, .beforeParameterBlocksAtTick, some 0, false⟩]⟩).2 =
        (if true then [SeqObu.temporalDelimiter] else []) ++
          arbitraryAt [⟨25, .beforeParameterBlocksAtTick, some 0, false⟩]
            .beforeParameterBlocksAtTick ++
          [(⟨7, 0⟩ : ParameterBlockM)].map SeqObu.parameterBlock ++
          arbitraryAt [⟨25, .beforeParameterBlocksAtTick, some 0, false⟩]
            .afterParameterBlocksAtTick ++
          [(⟨1, 2, 0⟩ : AudioFrameM)].map SeqObu.audioFrame ++
          arbitraryAt [⟨25, .beforeParameterBlocksAtTick, some 0, false⟩]
            .afterAudioFramesAtTick ∧
        ∀ a ∈ [(⟨25, .beforeParameterBlocksAtTick, some 0, false⟩ : ArbitraryObuM)],
          a.invalidateTemporalUnit = false) :=
  ⟨rfl, writeTemporalUnit_order true
    ⟨[⟨1, 2, 0⟩], [⟨7, 0⟩], [⟨25, .beforeParameterBlocksAtTick, some 0, false⟩]⟩ rfl⟩

theorem sortAudioFrames_perm (l : List AudioFrameM) : (sortAudioFrames l).Perm l :=
  List.perm_insertionSort _ _

theorem sortAudioFrames_sorted (l : List AudioFrameM) :
    List.Sorted afLexLe (sortAudioFrames l) :=
  List.sorted_insertionSort _ _

theorem findUnit_updateBucket_self (m : List (Int × TemporalUnitM)) (t : Int)
    (f : TemporalUnitM → TemporalUnitM) :
    findUnit (updateBucket m t f) t = some (f ((findUnit m t).getD emptyUnit)) := by
  induction m with
  | nil => simp [updateBucket, findUnit]
  | cons p rest ih =>
    obtain ⟨k, u⟩ := p
    by_cases hk : k = t
    · simp [updateBucket, findUnit, hk]
    · simp [updateBucket, findUnit, hk, ih]

theorem findUnit_updateBucket_other (m : List (Int × TemporalUnitM)) (t t' : Int)
    (f : TemporalUnitM → TemporalUnitM) (h : t' ≠ t) :
    findUnit (updateBucket m t f) t' = findUnit m t' := by
  induction m with
  | nil => simp [updateBucket, findUnit, Ne.symm h]
  | cons p rest ih =>
    obtain ⟨k, u⟩ := p
    by_cases hk : k = t
    · subst hk
      simp [updateBucket, findUnit, Ne.symm h]
    · by_cases hk' : k = t'
      · simp [updateBucket, findUnit, hk, hk', h]
      · simp [updateBucket, findUnit, hk, hk', ih]

theorem foldl_addAudioFrame_findUnit (afs : List AudioFrameM)
    (m : List (Int × TemporalUnitM)) (t : Int) :
    findUnit (afs.foldl addAudioFrame m) t =
      pushAFs (findUnit m t) (afs.filter fun af => decide (af.startTimestamp = t)) := by
  induction afs generalizing m with
  | nil => simp [pushAFs]
  | cons af afs ih =>
    rw [List.foldl_cons, ih, List.filter_cons]
    by_cases h : af.startTimestamp = t
    · rw [if_pos (by simpa using h)]
      rw [addAudioFrame, h, findUnit_updateBucket_self]
      by_cases hl : (afs.filter fun af => decide (af.startTimestamp = t)) = [] <;>
        simp [pushAFs, hl, List.append_assoc]
    · rw [if_neg (by simpa using h)]
      rw [addAudioFrame, findUnit_updateBucket_other _ _ _ _ (fun hh => h hh.symm)]

theorem foldl_addParameterBlock_findUnit (pbs : List ParameterBlockM)
    (m : List (Int × TemporalUnitM)) (t : Int) :
    findUnit (pbs.foldl addParameterBlock m) t =
      pushPBs (findUnit m t) (pbs.filter fun pb => decide (pb.startTimestamp = t)) := by
  induction pbs generalizing m with
  | nil => simp [pushPBs]
  | cons pb pbs ih =>
    rw [List.foldl_cons, ih, List.filter_cons]
    by_cases h : pb.startTimestamp = t
    · rw [if_pos (by simpa using h)]
      rw [addParameterBlock, h, findUnit_updateBucket_self]
      by_cases hl : (pbs.filter fun pb => decide (pb.startTimestamp = t)) = [] <;>
        simp [pushPBs, hl, List.append_assoc]
    · rw [if_neg (by simpa using h)]
      rw [addParameterBlock, findUnit_updateBucket_other _ _ _ _ (fun hh => h hh.symm)]

theorem foldl_addArbitrary_findUnit (arbs : List ArbitraryObuM)
    (m : List (Int × TemporalUnitM)) (t : Int) :
    findUnit (arbs.foldl addArbitrary m) t =
      pushArbs (findUnit m t)
        (arbs.filter fun a => decide (a.insertionTick = some t)) := by
  induction arbs generalizing m with
  | nil => simp [pushArbs]
  | cons a arbs ih =>
    rw [List.foldl_cons, ih, List.filter_cons]
    cases htick : a.insertionTick with
    | none =>
      rw [if_neg (by simp [htick])]
      rw [addArbitrary, htick]
    | some t0 =>
      by_cases ht : t0 = t
      · subst ht
        rw [if_pos (by simp [htick])]
        rw [addArbitrary, htick, findUnit_updateBucket_self]
        by_cases hl : (arbs.filter fun a => decide (a.insertionTick = some t0)) = [] <;>
          simp [pushArbs, hl, List.append_assoc]
      · rw [if_neg (by simp [htick, ht])]
        rw [addArbitrary, htick,
          findUnit_updateBucket_other _ _ _ _ (fun hh => ht hh.symm)]

theorem findUnit_raw_eq (afs : List AudioFrameM) (pbs : List ParameterBlockM)
    (arbs : List ArbitraryObuM) (t : Int) :
    findUnit (rawTemporalUnitMap afs pbs arbs) t =
      if (afs.filter fun af => decide (af.startTimestamp = t)) = [] ∧
          (pbs.filter fun pb => decide (pb.startTimestamp = t)) = [] ∧
          (arbs.filter fun a => decide (a.insertionTick = some t)) = []
      then none
      else
        some ⟨afs.filter fun af => decide (af.startTimestamp = t),
          pbs.filter fun pb => decide (pb.startTimestamp = t),
          arbs.filter fun a => decide (a.insertionTick = some t)⟩ := by
  rw [rawTemporalUnitMap, foldl_addArbitrary_findUnit, foldl_addParameterBlock_findUnit,
    foldl_addAudioFrame_findUnit]
  by_cases h1 : (afs.filter fun af => decide (af.startTimestamp = t)) = [] <;>
    by_cases h2 : (pbs.filter fun pb => decide (pb.startTimestamp = t)) = [] <;>
      by_cases h3 : (arbs.filter fun a => decide (a.insertionTick = some t)) = [] <;>
        simp [findUnit, pushAFs, pushPBs, pushArbs, h1, h2, h3, emptyUnit]

theorem findUnit_map_sortUnit (m : List (Int × TemporalUnitM)) (t : Int) :
    findUnit (m.map fun p => (p.1, sortUnit p.2)) t = (findUnit m t).map sortUnit := by
  induction m with
  | nil => rfl
  | cons p rest ih =>
    obtain ⟨k, u⟩ := p
    by_cases h : k = t <;> simp [findUnit, h, ih]

/-- C3: every bucket `GenerateTemporalUnitMap` produces for a timestamp
holds exactly the input audio frames and parameter blocks with that start
timestamp, the frames sorted primarily by `audio_element_id` and
secondarily by `substream_id`, the parameter blocks sorted by
`parameter_id`, regardless of input order. -/
theorem generateTemporalUnitMap_buckets (afs : List AudioFrameM)
    (pbs : List ParameterBlockM) (arbs : List ArbitraryObuM) (t : Int)
    (u : TemporalUnitM)
    (h : findUnit (generateTemporalUnitMap afs pbs arbs) t = some u) :
    u.audioFrames.Perm (afs.filter fun af => decide (af.startTimestamp = t)) ∧
      List.Sorted afLexLe u.audioFrames ∧
      u.parameterBlocks.Perm (pbs.filter fun pb => decide (pb.startTimestamp = t)) ∧
      List.Sorted (fun a b => a.parameterId ≤ b.parameterId) u.parameterBlocks := by
  rw [generateTemporalUnitMap, findUnit_map_sortUnit, findUnit_raw_eq] at h
  by_cases hc : (afs.filter fun af => decide (af.startTimestamp = t)) = [] ∧
      (pbs.filter fun pb => decide (pb.startTimestamp = t)) = [] ∧
      (arbs.filter fun a => decide (a.insertionTick = some t)) = []
  · rw [if_pos hc] at h
    cases h
  · rw [if_neg hc] at h
    rw [Option.map_some', Option.some.injEq] at h
    subst h
    exact ⟨sortAudioFrames_perm _, sortAudioFrames_sorted _,
      sortByKey_perm _ _, sortByKey_sorted _ _⟩

def afsS2 : List AudioFrameM := [⟨200, 3000, 0⟩, ⟨100, 4000, 0⟩, ⟨100, 2000, 0⟩]

def pbsS2 : List ParameterBlockM := [⟨9, 0⟩, ⟨5, 0⟩]

def unitS2 : TemporalUnitM :=
  ⟨[⟨100, 2000, 0⟩, ⟨100, 4000, 0⟩, ⟨200, 3000, 0⟩], [⟨5, 0⟩, ⟨9, 0⟩], []⟩

/-- Witness for C3's theorem on the spec's S2 scenario, fed out of
order. -/
theorem generateTemporalUnitMap_buckets_witness :
    findUnit (generateTemporalUnitMap afsS2 pbsS2 []) 0 = some unitS2 ∧
      (unitS2.audioFrames.Perm (afsS2.filter fun af => decide (af.startTimestamp = 0)) ∧
        List.Sorted afLexLe unitS2.audioFrames ∧
        unitS2.parameterBlocks.Perm
          (pbsS2.filter fun pb => decide (pb.startTimestamp = 0)) ∧
        List.Sorted (fun a b => a.parameterId ≤ b.parameterId) unitS2.parameterBlocks) :=
  ⟨rfl, generateTemporalUnitMap_buckets afsS2 pbsS2 [] 0 unitS2 rfl⟩

/-- C6: corrected — an arbitrary OBU lands in the bucket at a timestamp
exactly when it is an input whose insertion tick is that timestamp,
regardless of its insertion hook (a descriptor-hooked OBU carrying a tick
is bucketed too); every input carrying a tick reaches its bucket, and
OBUs without a tick are silently omitted, the map being built with no
error. -/
theorem generateTemporalUnitMap_arbitrary_placement (afs : List AudioFrameM)
    (pbs : List ParameterBlockM) (arbs : List ArbitraryObuM) (a : ArbitraryObuM) :
    (∀ t u, findUnit (generateTemporalUnitMap afs pbs arbs) t = some u →
        (a ∈ u.arbitraryObus ↔ a ∈ arbs ∧ a.insertionTick = some t)) ∧
      (a ∈ arbs → ∀ t, a.insertionTick = some t →
        ∃ u, findUnit (generateTemporalUnitMap afs pbs arbs) t = some u ∧
          a ∈ u.arbitraryObus) := by
  constructor
  · intro t u h
    rw [generateTemporalUnitMap, findUnit_map_sortUnit, findUnit_raw_eq] at h
    by_cases hc : (afs.filter fun af => decide (af.startTimestamp = t)) = [] ∧
        (pbs.filter fun pb => decide (pb.startTimestamp = t)) = [] ∧
        (arbs.filter fun a => decide (a.insertionTick = some t)) = []
    · rw [if_pos hc] at h
      cases h
    · rw [if_neg hc] at h
      rw [Option.map_some', Option.some.injEq] at h
      subst h
      simp [sortUnit, List.mem_filter]
  · intro ha t htick
    have hmem : a ∈ arbs.filter (fun x => decide (x.insertionTick = some t)) :=
      List.mem_filter.mpr ⟨ha, by simp [htick]⟩
    have hne : arbs.filter (fun x => decide (x.insertionTick = some t)) ≠ [] :=
      List.ne_nil_of_mem hmem
    rw [generateTemporalUnitMap, findUnit_map_sortUnit, findUnit_raw_eq,
      if_neg (fun hc => hne hc.2.2)]
    exact ⟨_, rfl, hmem⟩

def arbTickDesc : ArbitraryObuM := ⟨25, .afterIaSequenceHeader, some 99, false⟩

/-- The three arbitrary OBUs of the
`CreatesTemporalUnitsForEachInsertionTick` test: tick-bound at 99,
descriptor-hooked at 99, tick-bound at 1999. -/
def arbsTickTest : List ArbitraryObuM :=
  [⟨25, .afterParameterBlocksAtTick, some 99, false⟩, arbTickDesc,
    ⟨25, .afterParameterBlocksAtTick, some 1999, false⟩]

/-- C6 counterexample: on the shipped
`CreatesTemporalUnitsForEachInsertionTick` input, the descriptor-hooked
OBU with insertion tick 99 lands in bucket 99 — which then holds two
OBUs, as that test requires — refuting the claim that only tick-bound
hooks are bucketed and descriptor-hooked OBUs never appear in any
bucket. -/
theorem generateTemporalUnitMap_descriptor_hook_bucketed :
    tickBound arbTickDesc.insertionHook = false ∧
      findUnit (generateTemporalUnitMap [] [] arbsTickTest) 99 =
        some ⟨[], [],
          [⟨25, .afterParameterBlocksAtTick, some 99, false⟩, arbTickDesc]⟩ ∧
      arbTickDesc ∈ arbsTickTest :=
  ⟨rfl, rfl, by decide⟩

def arbsC6 : List ArbitraryObuM :=
  [⟨25, .afterDescriptors, some 0, false⟩,
    ⟨26, .beforeParameterBlocksAtTick, none, false⟩,
    ⟨27, .afterAudioFramesAtTick, some 0, false⟩]

def aC6 : ArbitraryObuM := ⟨27, .afterAudioFramesAtTick, some 0, false⟩

def unitC6 : TemporalUnitM :=
  ⟨[⟨1, 2, 0⟩], [], [⟨25, .afterDescriptors, some 0, false⟩, aC6]⟩

/-- Witness for C6's theorem: among a descriptor-hooked OBU at tick 0, a
tickless OBU and a tick-bound OBU at tick 0, the two tick-carrying ones
are placed in bucket 0 and the tickless one is dropped. -/
theorem generateTemporalUnitMap_arbitrary_placement_witness :
    (aC6 ∈ unitC6.arbitraryObus ↔ aC6 ∈ arbsC6 ∧ aC6.insertionTick = some 0) ∧
      ∃ u, findUnit (generateTemporalUnitMap [⟨1, 2, 0⟩] [] arbsC6) 0 = some u ∧
        aC6 ∈ u.arbitraryObus :=
  ⟨(generateTemporalUnitMap_arbitrary_placement [⟨1, 2, 0⟩] [] arbsC6 aC6).1 0 unitC6 rfl,
    (generateTemporalUnitMap_arbitrary_placement [⟨1, 2, 0⟩] [] arbsC6 aC6).2
      (by decide) 0 rfl⟩

/-- Modelled from the spec: the loop of `PickAndPlace` over the assembled
temporal units — the first failing unit aborts with its status (§4.5). -/
def writeUnitsLoop (d : Bool) : List (Int × TemporalUnitM) → StatusCode
  | [] => .ok
  | (_, u) :: rest =>
    if (writeTemporalUnit d u).1 ≠ .ok then (writeTemporalUnit d u).1
    else writeUnitsLoop d rest

/-- Modelled from the spec: `ObuSequencerIamf::PickAndPlace` with a file
path — the final status together with whether the output file exists
afterwards: a descriptor failure happens before the file is created, a
temporal-unit failure removes the partially-written file, and only a
fully successful run leaves the file when a path was given (§4.5, §7). -/
def pickAndPlace (pathProvided includeTemporalDelimiters : Bool)
    (ia : IASequenceHeaderM) (ccs : List CodecConfigM)
    (aes : List AudioElementWithData) (mps : List MixPresentationForParams)
    (afs : List AudioFrameM) (pbs : List ParameterBlockM)
    (arbs : List ArbitraryObuM) : StatusCode × Bool :=
  if (writeDescriptorObus ia ccs aes mps arbs).1 ≠ .ok then
    ((writeDescriptorObus ia ccs aes mps arbs).1, false)
  else if writeUnitsLoop includeTemporalDelimiters
      (generateTemporalUnitMap afs pbs arbs) ≠ .ok then
    (writeUnitsLoop includeTemporalDelimiters (generateTemporalUnitMap afs pbs arbs),
      false)
  else (.ok, pathProvided)

/-- C9: whenever a file-backed `PickAndPlace` run fails, no output file
exists afterwards — a descriptor failure precedes file creation and a
temporal-unit failure removes the partial file, so no failing run leaves
a partial IAMF file. -/
theorem pickAndPlace_no_partial_file (pathProvided d : Bool)
    (ia : IASequenceHeaderM) (ccs : List CodecConfigM)
    (aes : List AudioElementWithData) (mps : List MixPresentationForParams)
    (afs : List AudioFrameM) (pbs : List ParameterBlockM)
    (arbs : List ArbitraryObuM)
    (h : (pickAndPlace pathProvided d ia ccs aes mps afs pbs arbs).1 ≠ .ok) :
    (pickAndPlace pathProvided d ia ccs aes mps afs pbs arbs).2 = false := by
  rw [pickAndPlace] at h ⊢
  by_cases h1 : (writeDescriptorObus ia ccs aes mps arbs).1 ≠ .ok
  · rw [if_pos h1]
  · rw [if_neg h1] at h ⊢
    by_cases h2 : writeUnitsLoop d (generateTemporalUnitMap afs pbs arbs) ≠ .ok
    · rw [if_pos h2]
    · rw [if_neg h2] at h
      exact absurd rfl h

/-- Witness for C9's theorem: a run whose IA sequence header carries a
bad magic fails and leaves no file. -/
theorem pickAndPlace_no_partial_file_witness :
    (pickAndPlace true false ⟨0, .simple, .simple⟩ [] [] [] [] [] []).1 ≠ .ok ∧
      (pickAndPlace true false ⟨0, .simple, .simple⟩ [] [] [] [] [] []).2 = false :=
  ⟨by decide,
    pickAndPlace_no_partial_file true false ⟨0, .simple, .simple⟩ [] [] [] [] [] []
      (by decide)⟩

end IamfTools
